import Mathlib

/-!
# Managed resource handles (`resource_pool/managed_handle.go`)

A shallow embedding of `ManagedHandleImpl` and its five methods, followed by
the properties of its release/discard life cycle.

Modelling conventions:

* the receiver `c *ManagedHandleImpl` is a record of the five struct fields;
  the `int32` cell `isActive` is an `Int` (only the constants `0` and `1` are
  ever stored in it, so no wrap-around arises);
* a Go `error` is an `Option`: `none` is `nil`;
* the `ResourcePool` interface and `errors.New` are declared elsewhere in the
  repository; they are taken as parameters (`Env`);
* the pool is a stateful collaborator: its methods act on a pool-side memory
  `σ`.  A ghost list `calls` records, in order, each invocation the handle
  makes on its pool, so that "the pool is invoked exactly once" is a statement
  about that list;
* the pool behind a handle is a live `ResourcePool` value whose methods
  return; a nil pool or receiver and a pool method that panics or blocks
  are not modelled;
* calls are executed one after another (`run`); the atomic primitives are
  separate definitions, each one step on the `isActive` cell;
* concurrent `Release`/`Discard` calls are interleavings of goroutine steps
  (`exec`), and pool methods that call back into the handle are programs
  run by `callOp`.
-/

namespace resource_pool

/-- A Go `error` value: `none` is `nil`, `some e` is a non-nil error. -/
abbrev GoError (ε : Type) := Option ε

/-- The struct `ManagedHandleImpl`: `α` is the dynamic type behind the
`interface{}` resource, `P` the type of references to a `ResourcePool`,
`Opt` the type `Options`. -/
structure ManagedHandleImpl (α P Opt : Type) where
  location : String
  handle : α
  pool : P
  isActive : Int
  options : Opt
deriving DecidableEq, Repr

/-- Go `atomic.StoreInt32(addr, val)`: the new content of the cell. -/
def StoreInt32 (_cell : Int) (val : Int) : Int := val

/-- Go `atomic.LoadInt32(addr)`: the content of the cell. -/
def LoadInt32 (cell : Int) : Int := cell

/-- Go `atomic.CompareAndSwapInt32(addr, old, new)`: whether the swap happened,
and the content of the cell afterwards. -/
def CompareAndSwapInt32 (cell old new : Int) : Bool × Int :=
  if cell = old then (true, new) else (false, cell)

/-- The two methods of the `ResourcePool` interface that a handle calls.  Each
receives the handle (`H`) as it is at the time of the call and the pool-side
memory, and yields the returned error and the new pool-side memory.  The
handle's own fields are not part of what a pool method writes. -/
structure ResourcePool (ε H σ : Type) where
  Release : H → σ → GoError ε × σ
  Discard : H → σ → GoError ε × σ

/-- What the handle code takes from outside its file: `errors.New`, which
builds a non-nil error from a message, and the method table behind each pool
reference. -/
structure Env (ε α P Opt σ : Type) where
  errorsNew : String → ε
  pools : P → ResourcePool ε (ManagedHandleImpl α P Opt) σ

/-- One invocation made by a handle on its pool, with the argument passed. -/
inductive PoolCall (H : Type) where
  | Release (c : H)
  | Discard (c : H)
deriving DecidableEq, Repr

/-- The program state around one handle: the handle cell `c`, the pool-side
memory, and the ghost record of invocations made on the pool so far. -/
structure State (α P Opt σ : Type) where
  c : ManagedHandleImpl α P Opt
  mem : σ
  calls : List (PoolCall (ManagedHandleImpl α P Opt))
deriving DecidableEq, Repr

variable {ε α P Opt σ : Type}

/-- Constructor `NewManagedHandle`: the struct literal leaves `isActive` at its zero
value, then `atomic.StoreInt32(&h.isActive, 1)`. -/
def NewManagedHandle (resourceLocation : String) (handle : α) (pool : P)
    (options : Opt) : ManagedHandleImpl α P Opt :=
  let h : ManagedHandleImpl α P Opt :=
    { location := resourceLocation, handle := handle, pool := pool,
      isActive := 0, options := options }
  { h with isActive := StoreInt32 h.isActive 1 }

/-- Method `(*ManagedHandleImpl).ResourceLocation`. -/
def ManagedHandleImpl.ResourceLocation (s : State α P Opt σ) :
    String × State α P Opt σ :=
  (s.c.location, s)

/-- Method `(*ManagedHandleImpl).Handle`. -/
def ManagedHandleImpl.Handle (env : Env ε α P Opt σ) (s : State α P Opt σ) :
    (α × GoError ε) × State α P Opt σ :=
  if LoadInt32 s.c.isActive = 0 then
    ((s.c.handle, some (env.errorsNew "Resource handle is no longer valid")), s)
  else
    ((s.c.handle, none), s)

/-- Method `(*ManagedHandleImpl).Owner`. -/
def ManagedHandleImpl.Owner (s : State α P Opt σ) : P × State α P Opt σ :=
  (s.c.pool, s)

/-- Method `(*ManagedHandleImpl).Release`: the compare-and-swap is performed first;
on success the pool's `Release` is called with the receiver, which by then
holds `isActive = 0`. -/
def ManagedHandleImpl.Release (env : Env ε α P Opt σ) (s : State α P Opt σ) :
    GoError ε × State α P Opt σ :=
  let cas := CompareAndSwapInt32 s.c.isActive 1 0
  let c1 : ManagedHandleImpl α P Opt := { s.c with isActive := cas.2 }
  if cas.1 then
    let r := (env.pools c1.pool).Release c1 s.mem
    (r.1, { c := c1, mem := r.2, calls := s.calls ++ [PoolCall.Release c1] })
  else
    (none, { s with c := c1 })

/-- Method `(*ManagedHandleImpl).Discard`: as `Release`, forwarding to the pool's
`Discard`. -/
def ManagedHandleImpl.Discard (env : Env ε α P Opt σ) (s : State α P Opt σ) :
    GoError ε × State α P Opt σ :=
  let cas := CompareAndSwapInt32 s.c.isActive 1 0
  let c1 : ManagedHandleImpl α P Opt := { s.c with isActive := cas.2 }
  if cas.1 then
    let r := (env.pools c1.pool).Discard c1 s.mem
    (r.1, { c := c1, mem := r.2, calls := s.calls ++ [PoolCall.Discard c1] })
  else
    (none, { s with c := c1 })

/-- The methods of the `ManagedHandle` interface. -/
inductive Op where
  | ResourceLocation
  | Handle
  | Owner
  | Release
  | Discard
deriving DecidableEq, Repr

/-- The value a method call returns. -/
inductive Ret (ε α P : Type) where
  | ResourceLocation (loc : String)
  | Handle (h : α) (err : GoError ε)
  | Owner (p : P)
  | Release (err : GoError ε)
  | Discard (err : GoError ε)
deriving DecidableEq, Repr

/-- One method call on the handle. -/
def step (env : Env ε α P Opt σ) (o : Op) (s : State α P Opt σ) :
    Ret ε α P × State α P Opt σ :=
  match o with
  | Op.ResourceLocation =>
    let r := ManagedHandleImpl.ResourceLocation s
    (Ret.ResourceLocation r.1, r.2)
  | Op.Handle =>
    let r := ManagedHandleImpl.Handle env s
    (Ret.Handle r.1.1 r.1.2, r.2)
  | Op.Owner =>
    let r := ManagedHandleImpl.Owner s
    (Ret.Owner r.1, r.2)
  | Op.Release =>
    let r := ManagedHandleImpl.Release env s
    (Ret.Release r.1, r.2)
  | Op.Discard =>
    let r := ManagedHandleImpl.Discard env s
    (Ret.Discard r.1, r.2)

/-- A sequence of method calls executed one after another: the values
returned, in order, and the final state. -/
def run (env : Env ε α P Opt σ) : List Op → State α P Opt σ →
    List (Ret ε α P) × State α P Opt σ
  | [], s => ([], s)
  | o :: os, s =>
    let r := step env o s
    let rest := run env os r.2
    (r.1 :: rest.1, rest.2)

/-- The state right after construction: a new handle, the pool-side memory
as it is, and no invocation made on the pool yet. -/
def fresh (resourceLocation : String) (handle : α) (pool : P) (options : Opt)
    (mem : σ) : State α P Opt σ :=
  { c := NewManagedHandle resourceLocation handle pool options, mem := mem,
    calls := [] }

/-- The handle is active: the atomic flag holds `1`. -/
def Active (c : ManagedHandleImpl α P Opt) : Prop := c.isActive = 1

/-- The handle is terminated: the atomic flag holds `0`. -/
def Terminated (c : ManagedHandleImpl α P Opt) : Prop := c.isActive = 0

instance (c : ManagedHandleImpl α P Opt) : Decidable (Active c) :=
  inferInstanceAs (Decidable (c.isActive = 1))

instance (c : ManagedHandleImpl α P Opt) : Decidable (Terminated c) :=
  inferInstanceAs (Decidable (c.isActive = 0))

/-- `Release` and `Discard` are the terminal calls. -/
def Op.isTerminal : Op → Bool
  | Op.Release => true
  | Op.Discard => true
  | _ => false

/-- The handle `c` as its pool sees it once the flag has been cleared. -/
def cleared (c : ManagedHandleImpl α P Opt) : ManagedHandleImpl α P Opt :=
  { c with isActive := 0 }

/-! ### A concrete pool, for evaluating the model

The pool-side memory is the list of resources in the reusable inventory.
`Release` puts the resource back; `Discard` drops it and, for the pool
reference `7`, reports an error. -/

/-- A pool whose `Release` returns the resource to the inventory and whose
`Discard` fails. -/
def demoPool : ResourcePool String (ManagedHandleImpl String Nat Unit) (List String) where
  Release := fun c mem => (none, c.handle :: mem)
  Discard := fun _ mem => (some "disk full", mem)

/-- A pool whose `Release` fails. -/
def fullPool : ResourcePool String (ManagedHandleImpl String Nat Unit) (List String) where
  Release := fun _ mem => (some "disk full", mem)
  Discard := fun _ mem => (none, mem)

/-- Pool reference `7` is `fullPool`, every other reference is `demoPool`. -/
def demoEnv : Env String String Nat Unit (List String) where
  errorsNew := fun msg => msg
  pools := fun p => if p = 7 then fullPool else demoPool

/-- A new handle over resource `"R"` at `"host:1"`, owned by pool `p`. -/
def demoFresh (p : Nat) : State String Nat Unit (List String) :=
  fresh "host:1" "R" p () []

/-! ### Handles that differ in their options only -/

/-- The handle `c` with its `options` field replaced by `o`. -/
def ManagedHandleImpl.withOptions (o : Opt) (c : ManagedHandleImpl α P Opt) :
    ManagedHandleImpl α P Opt :=
  { c with options := o }

/-- The same invocation, on the handle carrying options `o`. -/
def PoolCall.withOptions (o : Opt) :
    PoolCall (ManagedHandleImpl α P Opt) → PoolCall (ManagedHandleImpl α P Opt)
  | PoolCall.Release c => PoolCall.Release (c.withOptions o)
  | PoolCall.Discard c => PoolCall.Discard (c.withOptions o)

/-- The same program state, around the handle carrying options `o`. -/
def State.withOptions (o : Opt) (s : State α P Opt σ) : State α P Opt σ :=
  { c := s.c.withOptions o, mem := s.mem,
    calls := s.calls.map (PoolCall.withOptions o) }

/-- The pools see a handle through the `ManagedHandle` interface, none of
whose methods gives access to the `options` field: what a pool method does
and returns is the same for two handles that differ in `options` only. -/
def IgnoresOptions (env : Env ε α P Opt σ) : Prop :=
  ∀ (p : P) (c : ManagedHandleImpl α P Opt) (o : Opt) (m : σ),
    (env.pools p).Release (c.withOptions o) m = (env.pools p).Release c m ∧
    (env.pools p).Discard (c.withOptions o) m = (env.pools p).Discard c m

/-- The value returned, without the error a pool method supplied: the error
of `Release` and `Discard` is replaced by nil. -/
def Ret.withoutPoolError : Ret ε α P → Ret ε α P
  | Ret.Release _ => Ret.Release none
  | Ret.Discard _ => Ret.Discard none
  | r => r

/-- The states `s1` and `s2` hold the same handle and the same record of
pool invocations, but for the handle's options, which are `o` in `s1`.  The
pool-side memories are not compared. -/
def sameButOptions (o : Opt) (s1 s2 : State α P Opt σ) : Prop :=
  s1.c = s2.c.withOptions o ∧ s1.calls = s2.calls.map (PoolCall.withOptions o)

/-- A pool for handles whose options are numbers: `Release` returns the
resource to the inventory, `Discard` fails; neither looks at the options. -/
def optPool : ResourcePool String (ManagedHandleImpl String Nat Nat) (List String) where
  Release := fun c mem => (none, c.handle :: mem)
  Discard := fun _ mem => (some "disk full", mem)

/-- Every pool reference is `optPool`. -/
def optEnv : Env String String Nat Nat (List String) where
  errorsNew := fun msg => msg
  pools := fun _ => optPool

/-- A pool whose `Release` looks at the options of the handle it is given:
it reports an error for options `3` and nil otherwise. -/
def pickyPool : ResourcePool String (ManagedHandleImpl String Nat Nat) (List String) where
  Release := fun c mem => (if c.options = 3 then some "quota exceeded" else none, mem)
  Discard := fun _ mem => (none, mem)

/-- Every pool reference is `pickyPool`. -/
def pickyEnv : Env String String Nat Nat (List String) where
  errorsNew := fun msg => msg
  pools := fun _ => pickyPool

/-! ### Concurrent terminal calls

Several goroutines call `Release` or `Discard` on the same handle at the same
time.  The operations of `sync/atomic` are sequentially consistent, so an
execution is an interleaving of the goroutines' steps.  The body of
`Release`/`Discard` has two steps: the compare-and-swap, and, when the swap
succeeded, the call into the pool. -/

/-- The two terminal methods. -/
inductive Terminal where
  | Release
  | Discard
deriving DecidableEq, Repr

/-- The terminal method as a method of the interface. -/
def Terminal.toOp : Terminal → Op
  | Terminal.Release => Op.Release
  | Terminal.Discard => Op.Discard

/-- Where a goroutine stands in the body of `Release`/`Discard`: before the
compare-and-swap, after a successful swap and before the call into the pool,
or returned with an error value. -/
inductive Pc (ε : Type) where
  | start
  | swapped
  | returned (err : GoError ε)
deriving DecidableEq, Repr

/-- One goroutine executing a terminal method.  The ghost flag `won` records
that its compare-and-swap returned true. -/
structure Goroutine (ε : Type) where
  op : Terminal
  pc : Pc ε
  won : Bool
deriving DecidableEq, Repr

/-- The invocation `c.pool.Release(c)`, resp. `c.pool.Discard(c)`, as recorded
in the ghost list. -/
def poolCall (t : Terminal) (c : ManagedHandleImpl α P Opt) :
    PoolCall (ManagedHandleImpl α P Opt) :=
  match t with
  | Terminal.Release => PoolCall.Release c
  | Terminal.Discard => PoolCall.Discard c

/-- What `c.pool.Release(c)`, resp. `c.pool.Discard(c)`, returns and leaves
in the pool-side memory. -/
def poolResult (env : Env ε α P Opt σ) (t : Terminal) (c : ManagedHandleImpl α P Opt)
    (m : σ) : GoError ε × σ :=
  match t with
  | Terminal.Release => (env.pools c.pool).Release c m
  | Terminal.Discard => (env.pools c.pool).Discard c m

/-- The second step of `Release`/`Discard`: `return c.pool.Release(c)`, resp.
`return c.pool.Discard(c)`, on the handle as it is at that time. -/
def forward (env : Env ε α P Opt σ) (t : Terminal) (s : State α P Opt σ) :
    GoError ε × State α P Opt σ :=
  ((poolResult env t s.c s.mem).1,
    { s with mem := (poolResult env t s.c s.mem).2,
             calls := s.calls ++ [poolCall t s.c] })

/-- One step of a goroutine: at `start` the compare-and-swap on the shared
flag, after which it either holds the win or returns nil; at `swapped` the
call into the pool, whose result it returns; a returned goroutine does
nothing. -/
def stepG (env : Env ε α P Opt σ) (g : Goroutine ε) (s : State α P Opt σ) :
    Goroutine ε × State α P Opt σ :=
  match g.pc with
  | Pc.start =>
    let cas := CompareAndSwapInt32 s.c.isActive 1 0
    let s1 : State α P Opt σ := { s with c := { s.c with isActive := cas.2 } }
    if cas.1 then ({ g with pc := Pc.swapped, won := true }, s1)
    else ({ g with pc := Pc.returned none }, s1)
  | Pc.swapped =>
    let r := forward env g.op s
    ({ g with pc := Pc.returned r.1 }, r.2)
  | Pc.returned _ => (g, s)

/-- The shared state and the goroutines running on it. -/
structure Sys (ε α P Opt σ : Type) where
  st : State α P Opt σ
  gs : List (Goroutine ε)
deriving DecidableEq, Repr

/-- The scheduler lets goroutine `i` take one step (nothing happens when
there is no goroutine `i`). -/
def stepSys (env : Env ε α P Opt σ) (i : Nat) (sys : Sys ε α P Opt σ) :
    Sys ε α P Opt σ :=
  match sys.gs[i]? with
  | none => sys
  | some g => { st := (stepG env g sys.st).2, gs := sys.gs.set i (stepG env g sys.st).1 }

/-- An interleaving: the goroutines step in the order given by the schedule. -/
def exec (env : Env ε α P Opt σ) : List Nat → Sys ε α P Opt σ → Sys ε α P Opt σ
  | [], sys => sys
  | i :: rest, sys => exec env rest (stepSys env i sys)

/-- The terminal calls `ts` are issued concurrently on the state `s`: every
goroutine is at the start of its method. -/
def spawn (ts : List Terminal) (s : State α P Opt σ) : Sys ε α P Opt σ :=
  { st := s, gs := ts.map (fun t => { op := t, pc := Pc.start, won := false }) }

/-- The goroutine has returned. -/
def Pc.isReturned : Pc ε → Bool
  | Pc.returned _ => true
  | _ => false

/-- Every goroutine has returned. -/
def allReturned (sys : Sys ε α P Opt σ) : Bool :=
  sys.gs.all (fun g => g.pc.isReturned)

/-- Progress of a goroutine, in steps taken (at most two). -/
def Pc.rank : Pc ε → Nat
  | Pc.start => 0
  | Pc.swapped => 1
  | Pc.returned _ => 2

/-- The goroutine `g` is the winner, running method `t`, seen from the state
`s0` in which the calls were issued: either it holds the win and the shared
state is `s0` with the flag cleared, or it has returned what the pool
returned and the shared state is the one its call into the pool left. -/
def winnerAt (env : Env ε α P Opt σ) (s0 : State α P Opt σ) (t : Terminal)
    (g : Goroutine ε) (st : State α P Opt σ) : Prop :=
  (g = { op := t, pc := Pc.swapped, won := true } ∧
    st = { s0 with c := cleared s0.c }) ∨
  (g = { op := t, pc := Pc.returned (forward env t { s0 with c := cleared s0.c }).1,
         won := true } ∧
    st = (forward env t { s0 with c := cleared s0.c }).2)

/-- The goroutine `g` has not won: it has not swapped yet, or has returned
nil. -/
def loser (g : Goroutine ε) : Prop :=
  g.won = false ∧ (g.pc = Pc.start ∨ g.pc = Pc.returned none)

/-- The invariant of the interleavings of the calls `ts` issued on `s0`:
either no goroutine has swapped yet and the state is still `s0`, or exactly
one goroutine is the winner and all the others are losers. -/
def Inv (env : Env ε α P Opt σ) (s0 : State α P Opt σ) (ts : List Terminal)
    (sys : Sys ε α P Opt σ) : Prop :=
  sys.gs.length = ts.length ∧
  (∀ (i : Nat) (g : Goroutine ε), sys.gs[i]? = some g → ts[i]? = some g.op) ∧
  ((sys.st = s0 ∧
      ∀ (i : Nat) (g : Goroutine ε), sys.gs[i]? = some g →
        g.pc = Pc.start ∧ g.won = false) ∨
    (∃ w gw t, ts[w]? = some t ∧ sys.gs[w]? = some gw ∧
      winnerAt env s0 t gw sys.st ∧
      ∀ (j : Nat) (g : Goroutine ε), j ≠ w → sys.gs[j]? = some g → loser g))

/-! ### Pool methods that call back into the handle

The pool receives the pointer `c`, so `c.pool.Release(c)` may itself call
methods of `c` before it returns.  A pool method is then a program that
alternates accesses to the pool-side memory with method calls on the handle
it was given, and ends by returning an error value. -/

/-- What a pool method does: `ret err m` returns `err`, leaving the pool-side
memory `m`; `invoke o m k` leaves the memory `m`, calls method `o` of the
handle it was given, and goes on with `k` applied to the value returned and
to the pool-side memory after that call. -/
inductive PoolProg (ε α P σ : Type) where
  | ret (err : GoError ε) (m : σ)
  | invoke (o : Op) (m : σ) (k : Ret ε α P → σ → PoolProg ε α P σ)

/-- The two methods of the `ResourcePool` interface, for a pool that may call
back into the handle. -/
structure ReentrantPool (ε α P Opt σ : Type) where
  Release : ManagedHandleImpl α P Opt → σ → PoolProg ε α P σ
  Discard : ManagedHandleImpl α P Opt → σ → PoolProg ε α P σ

/-- The environment of the handle code, with pools that may call back. -/
structure REnv (ε α P Opt σ : Type) where
  errorsNew : String → ε
  pools : P → ReentrantPool ε α P Opt σ

/-- Running a pool method on the state `st`, the method calls it makes on the
handle being answered by `call` (`none`: the call did not return). -/
def runProg (call : Op → State α P Opt σ → Option (Ret ε α P × State α P Opt σ)) :
    PoolProg ε α P σ → State α P Opt σ → Option (GoError ε × State α P Opt σ)
  | PoolProg.ret err m, st => some (err, { st with mem := m })
  | PoolProg.invoke o m k, st =>
    match call o { st with mem := m } with
    | none => none
    | some r => runProg call (k r.1 r.2.mem) r.2

/-- A method call on the handle, with pools that may call back.  The first
argument bounds the depth of nested method calls (a call made by a pool
method while another call is in progress); `none` means the bound was
exceeded.  The bodies are those of the five methods; in `Release` and
`Discard` the pool method runs after the compare-and-swap. -/
def callOp (env : REnv ε α P Opt σ) :
    Nat → Op → State α P Opt σ → Option (Ret ε α P × State α P Opt σ)
  | 0, _, _ => none
  | _ + 1, Op.ResourceLocation, s => some (Ret.ResourceLocation s.c.location, s)
  | _ + 1, Op.Handle, s =>
    if LoadInt32 s.c.isActive = 0 then
      some (Ret.Handle s.c.handle
        (some (env.errorsNew "Resource handle is no longer valid")), s)
    else
      some (Ret.Handle s.c.handle none, s)
  | _ + 1, Op.Owner, s => some (Ret.Owner s.c.pool, s)
  | n + 1, Op.Release, s =>
    let cas := CompareAndSwapInt32 s.c.isActive 1 0
    let c1 : ManagedHandleImpl α P Opt := { s.c with isActive := cas.2 }
    if cas.1 then
      match runProg (callOp env n) ((env.pools c1.pool).Release c1 s.mem)
          { c := c1, mem := s.mem, calls := s.calls ++ [PoolCall.Release c1] } with
      | none => none
      | some r => some (Ret.Release r.1, r.2)
    else
      some (Ret.Release none, { s with c := c1 })
  | n + 1, Op.Discard, s =>
    let cas := CompareAndSwapInt32 s.c.isActive 1 0
    let c1 : ManagedHandleImpl α P Opt := { s.c with isActive := cas.2 }
    if cas.1 then
      match runProg (callOp env n) ((env.pools c1.pool).Discard c1 s.mem)
          { c := c1, mem := s.mem, calls := s.calls ++ [PoolCall.Discard c1] } with
      | none => none
      | some r => some (Ret.Discard r.1, r.2)
    else
      some (Ret.Discard none, { s with c := c1 })

/-- Stated from the claim: what a method returns when called on the
terminated handle `c`: `Handle` the resource with the error, `Release` and
`Discard` nil, the two accessors their field. -/
def terminatedAnswer (env : REnv ε α P Opt σ) (c : ManagedHandleImpl α P Opt) :
    Op → Ret ε α P
  | Op.ResourceLocation => Ret.ResourceLocation c.location
  | Op.Handle =>
    Ret.Handle c.handle (some (env.errorsNew "Resource handle is no longer valid"))
  | Op.Owner => Ret.Owner c.pool
  | Op.Release => Ret.Release none
  | Op.Discard => Ret.Discard none

/-- Stated from the claim: the outcome of a pool method all of whose calls
into the handle are answered by `answer`, none of them touching the
pool-side memory: the error it returns and the memory it leaves. -/
def runAnswered (answer : Op → Ret ε α P) : PoolProg ε α P σ → GoError ε × σ
  | PoolProg.ret err m => (err, m)
  | PoolProg.invoke o m k => runAnswered answer (k (answer o) m)

/-- A pool that does not call back, as a pool that may. -/
def ResourcePool.toReentrant (pool : ResourcePool ε (ManagedHandleImpl α P Opt) σ) :
    ReentrantPool ε α P Opt σ where
  Release := fun c m => PoolProg.ret (pool.Release c m).1 (pool.Release c m).2
  Discard := fun c m => PoolProg.ret (pool.Discard c m).1 (pool.Discard c m).2

/-- An environment whose pools do not call back, as one whose pools may. -/
def Env.toREnv (env : Env ε α P Opt σ) : REnv ε α P Opt σ where
  errorsNew := env.errorsNew
  pools := fun p => (env.pools p).toReentrant

/-- A pool whose `Release` calls `Handle`, `Release` and `Discard` on the
handle it was given, logs the three answers in its memory and returns nil,
and whose `Discard` calls `Discard` on the handle and returns what it got. -/
def nosyPool : ReentrantPool String String Nat Unit (List (Ret String String Nat)) where
  Release := fun _ m =>
    PoolProg.invoke Op.Handle m (fun r1 m1 =>
      PoolProg.invoke Op.Release m1 (fun r2 m2 =>
        PoolProg.invoke Op.Discard m2 (fun r3 m3 =>
          PoolProg.ret none (m3 ++ [r1, r2, r3]))))
  Discard := fun _ m =>
    PoolProg.invoke Op.Discard m (fun r m1 =>
      PoolProg.ret (match r with
        | Ret.Discard err => err
        | _ => none) m1)

/-- Every pool reference is `nosyPool`. -/
def nosyEnv : REnv String String Nat Unit (List (Ret String String Nat)) where
  errorsNew := fun msg => msg
  pools := fun _ => nosyPool

/-! ### Basic facts about the methods -/

theorem Release_of_active (env : Env ε α P Opt σ) (s : State α P Opt σ)
    (h : s.c.isActive = 1) :
    ManagedHandleImpl.Release env s =
      (((env.pools s.c.pool).Release (cleared s.c) s.mem).1,
        { c := cleared s.c,
          mem := ((env.pools s.c.pool).Release (cleared s.c) s.mem).2,
          calls := s.calls ++ [PoolCall.Release (cleared s.c)] }) := by
  simp [ManagedHandleImpl.Release, CompareAndSwapInt32, cleared, h]

theorem Discard_of_active (env : Env ε α P Opt σ) (s : State α P Opt σ)
    (h : s.c.isActive = 1) :
    ManagedHandleImpl.Discard env s =
      (((env.pools s.c.pool).Discard (cleared s.c) s.mem).1,
        { c := cleared s.c,
          mem := ((env.pools s.c.pool).Discard (cleared s.c) s.mem).2,
          calls := s.calls ++ [PoolCall.Discard (cleared s.c)] }) := by
  simp [ManagedHandleImpl.Discard, CompareAndSwapInt32, cleared, h]

theorem Release_of_not_active (env : Env ε α P Opt σ) (s : State α P Opt σ)
    (h : s.c.isActive ≠ 1) : ManagedHandleImpl.Release env s = (none, s) := by
  simp [ManagedHandleImpl.Release, CompareAndSwapInt32, h]

theorem Discard_of_not_active (env : Env ε α P Opt σ) (s : State α P Opt σ)
    (h : s.c.isActive ≠ 1) : ManagedHandleImpl.Discard env s = (none, s) := by
  simp [ManagedHandleImpl.Discard, CompareAndSwapInt32, h]

theorem Handle_state (env : Env ε α P Opt σ) (s : State α P Opt σ) :
    (ManagedHandleImpl.Handle env s).2 = s := by
  unfold ManagedHandleImpl.Handle
  split <;> rfl

theorem Handle_of_cleared (env : Env ε α P Opt σ) (s : State α P Opt σ)
    (h : s.c.isActive = 0) :
    ManagedHandleImpl.Handle env s =
      ((s.c.handle, some (env.errorsNew "Resource handle is no longer valid")), s) := by
  simp [ManagedHandleImpl.Handle, LoadInt32, h]

theorem Handle_of_set (env : Env ε α P Opt σ) (s : State α P Opt σ)
    (h : s.c.isActive ≠ 0) :
    ManagedHandleImpl.Handle env s = ((s.c.handle, none), s) := by
  simp [ManagedHandleImpl.Handle, LoadInt32, h]

theorem fresh_isActive (loc : String) (h : α) (p : P) (opts : Opt) (mem : σ) :
    (fresh loc h p opts mem).c.isActive = 1 := rfl

/-- A call on a handle whose flag is `0` leaves the whole state as it is. -/
theorem step_of_cleared (env : Env ε α P Opt σ) (o : Op) (s : State α P Opt σ)
    (h : s.c.isActive = 0) : (step env o s).2 = s := by
  have h1 : s.c.isActive ≠ 1 := by omega
  cases o
  · rfl
  · exact Handle_state env s
  · rfl
  · simp [step, Release_of_not_active env s h1]
  · simp [step, Discard_of_not_active env s h1]

/-- A sequence of calls on a handle whose flag is `0` leaves the whole state
as it is. -/
theorem run_of_cleared (env : Env ε α P Opt σ) (ops : List Op) (s : State α P Opt σ)
    (h : s.c.isActive = 0) : (run env ops s).2 = s := by
  induction ops with
  | nil => rfl
  | cons o os ih =>
    simp only [run]
    rw [step_of_cleared env o s h]
    exact ih

/-- The state after a terminal call on a handle whose flag is `1`. -/
theorem step_terminal_of_active (env : Env ε α P Opt σ) (t : Op) (s : State α P Opt σ)
    (ht : t.isTerminal = true) (h : s.c.isActive = 1) :
    (step env t s).2.c = cleared s.c ∧
      (step env t s).2.calls = s.calls ++
        [if t = Op.Release then PoolCall.Release (cleared s.c)
         else PoolCall.Discard (cleared s.c)] := by
  cases t
  · simp [Op.isTerminal] at ht
  · simp [Op.isTerminal] at ht
  · simp [Op.isTerminal] at ht
  · simp [step, Release_of_active env s h]
  · simp [step, Discard_of_active env s h]

/-- No method writes a field other than `isActive`. -/
theorem step_frame (env : Env ε α P Opt σ) (o : Op) (s : State α P Opt σ) :
    (step env o s).2.c.location = s.c.location ∧
    (step env o s).2.c.handle = s.c.handle ∧
    (step env o s).2.c.pool = s.c.pool ∧
    (step env o s).2.c.options = s.c.options := by
  cases o
  · exact ⟨rfl, rfl, rfl, rfl⟩
  · simp only [step]
    rw [Handle_state env s]
    exact ⟨rfl, rfl, rfl, rfl⟩
  · exact ⟨rfl, rfl, rfl, rfl⟩
  · by_cases h : s.c.isActive = 1
    · simp [step, Release_of_active env s h, cleared]
    · simp [step, Release_of_not_active env s h]
  · by_cases h : s.c.isActive = 1
    · simp [step, Discard_of_active env s h, cleared]
    · simp [step, Discard_of_not_active env s h]

/-- No sequence of calls writes a field other than `isActive`. -/
theorem run_frame (env : Env ε α P Opt σ) (ops : List Op) (s : State α P Opt σ) :
    (run env ops s).2.c.location = s.c.location ∧
    (run env ops s).2.c.handle = s.c.handle ∧
    (run env ops s).2.c.pool = s.c.pool ∧
    (run env ops s).2.c.options = s.c.options := by
  induction ops generalizing s with
  | nil => exact ⟨rfl, rfl, rfl, rfl⟩
  | cons o os ih =>
    simp only [run]
    obtain ⟨h1, h2, h3, h4⟩ := ih (step env o s).2
    obtain ⟨k1, k2, k3, k4⟩ := step_frame env o s
    exact ⟨h1.trans k1, h2.trans k2, h3.trans k3, h4.trans k4⟩

/-- A call other than `Release` and `Discard` leaves the whole state as it
is. -/
theorem step_of_not_terminal (env : Env ε α P Opt σ) (o : Op) (s : State α P Opt σ)
    (h : o.isTerminal = false) : (step env o s).2 = s := by
  cases o
  · rfl
  · exact Handle_state env s
  · rfl
  · simp [Op.isTerminal] at h
  · simp [Op.isTerminal] at h

/-- A sequence of calls without `Release` and `Discard` leaves the whole
state as it is. -/
theorem run_of_not_terminal (env : Env ε α P Opt σ) (ops : List Op)
    (s : State α P Opt σ) (h : ∀ o ∈ ops, o.isTerminal = false) :
    (run env ops s).2 = s := by
  induction ops with
  | nil => rfl
  | cons o os ih =>
    simp only [run]
    rw [step_of_not_terminal env o s (h o (List.mem_cons_self _ _))]
    exact ih (fun o1 h1 => h o1 (List.mem_cons_of_mem _ h1))

/-- The values returned by `n` successive `Handle` calls while the flag is
not `0`, and the state they leave. -/
theorem run_replicate_Handle (env : Env ε α P Opt σ) (n : Nat) (s : State α P Opt σ)
    (h : s.c.isActive ≠ 0) :
    run env (List.replicate n Op.Handle) s =
      (List.replicate n (Ret.Handle s.c.handle none), s) := by
  induction n with
  | zero => rfl
  | succ k ih =>
    simp only [List.replicate_succ, run, step]
    rw [Handle_of_set env s h]
    simp [ih]

/-- The flag of a cleared handle is not `1`. -/
theorem cleared_isActive_ne_one (c : ManagedHandleImpl α P Opt) :
    (cleared c).isActive ≠ 1 := by
  simp [cleared]

/-- Two terminal calls in a row on a new handle, when the first one is
`Release`: the second returns nil and adds nothing. -/
theorem run_Release_then (env : Env ε α P Opt σ) (loc : String) (h : α) (p : P)
    (opts : Opt) (mem : σ) (t : Op) (ht : t.isTerminal = true) :
    (run env [Op.Release, t] (fresh loc h p opts mem)).1 =
      [Ret.Release ((env.pools p).Release (cleared (NewManagedHandle loc h p opts)) mem).1,
        if t = Op.Release then Ret.Release none else Ret.Discard none] ∧
    (run env [Op.Release, t] (fresh loc h p opts mem)).2 =
      (run env [Op.Release] (fresh loc h p opts mem)).2 ∧
    (run env [Op.Release] (fresh loc h p opts mem)).2.calls =
      [PoolCall.Release (cleared (NewManagedHandle loc h p opts))] := by
  have h1 := Release_of_active env (fresh loc h p opts mem) (fresh_isActive loc h p opts mem)
  cases t
  · simp [Op.isTerminal] at ht
  · simp [Op.isTerminal] at ht
  · simp [Op.isTerminal] at ht
  · simp only [run, step]
    rw [h1, Release_of_not_active env _ (cleared_isActive_ne_one _)]
    exact ⟨rfl, rfl, rfl⟩
  · simp only [run, step]
    rw [h1, Discard_of_not_active env _ (cleared_isActive_ne_one _)]
    exact ⟨rfl, rfl, rfl⟩

/-- Two terminal calls in a row on a new handle, when the first one is
`Discard`: the second returns nil and adds nothing. -/
theorem run_Discard_then (env : Env ε α P Opt σ) (loc : String) (h : α) (p : P)
    (opts : Opt) (mem : σ) (t : Op) (ht : t.isTerminal = true) :
    (run env [Op.Discard, t] (fresh loc h p opts mem)).1 =
      [Ret.Discard ((env.pools p).Discard (cleared (NewManagedHandle loc h p opts)) mem).1,
        if t = Op.Release then Ret.Release none else Ret.Discard none] ∧
    (run env [Op.Discard, t] (fresh loc h p opts mem)).2 =
      (run env [Op.Discard] (fresh loc h p opts mem)).2 ∧
    (run env [Op.Discard] (fresh loc h p opts mem)).2.calls =
      [PoolCall.Discard (cleared (NewManagedHandle loc h p opts))] := by
  have h1 := Discard_of_active env (fresh loc h p opts mem) (fresh_isActive loc h p opts mem)
  cases t
  · simp [Op.isTerminal] at ht
  · simp [Op.isTerminal] at ht
  · simp [Op.isTerminal] at ht
  · simp only [run, step]
    rw [h1, Release_of_not_active env _ (cleared_isActive_ne_one _)]
    exact ⟨rfl, rfl, rfl⟩
  · simp only [run, step]
    rw [h1, Discard_of_not_active env _ (cleared_isActive_ne_one _)]
    exact ⟨rfl, rfl, rfl⟩

/-! ### Facts about the interleavings -/

theorem stepG_start_active (env : Env ε α P Opt σ) (g : Goroutine ε)
    (s : State α P Opt σ) (hpc : g.pc = Pc.start) (h : s.c.isActive = 1) :
    stepG env g s =
      ({ op := g.op, pc := Pc.swapped, won := true }, { s with c := cleared s.c }) := by
  simp [stepG, hpc, CompareAndSwapInt32, h, cleared]

theorem stepG_start_cleared (env : Env ε α P Opt σ) (g : Goroutine ε)
    (s : State α P Opt σ) (hpc : g.pc = Pc.start) (h : s.c.isActive = 0) :
    stepG env g s = ({ op := g.op, pc := Pc.returned none, won := g.won }, s) := by
  obtain ⟨⟨l, hd, p, a, o⟩, m, cl⟩ := s
  simp only at h
  subst h
  simp [stepG, hpc, CompareAndSwapInt32]

theorem stepG_swapped (env : Env ε α P Opt σ) (g : Goroutine ε)
    (s : State α P Opt σ) (hpc : g.pc = Pc.swapped) :
    stepG env g s =
      ({ op := g.op, pc := Pc.returned (forward env g.op s).1, won := g.won },
        (forward env g.op s).2) := by
  simp [stepG, hpc]

theorem stepG_returned (env : Env ε α P Opt σ) (g : Goroutine ε)
    (s : State α P Opt σ) (e : GoError ε) (hpc : g.pc = Pc.returned e) :
    stepG env g s = (g, s) := by
  simp [stepG, hpc]

/-- A step does not change the method a goroutine runs. -/
theorem stepG_op (env : Env ε α P Opt σ) (g : Goroutine ε) (s : State α P Opt σ) :
    (stepG env g s).1.op = g.op := by
  cases hpc : g.pc with
  | start =>
    unfold stepG
    simp only [hpc]
    split <;> rfl
  | swapped => rw [stepG_swapped env g s hpc]
  | returned e => rw [stepG_returned env g s e hpc]

/-- Each step takes a goroutine one step further, up to its return. -/
theorem stepG_rank (env : Env ε α P Opt σ) (g : Goroutine ε) (s : State α P Opt σ) :
    min 2 (g.pc.rank + 1) ≤ (stepG env g s).1.pc.rank := by
  cases hpc : g.pc with
  | start =>
    unfold stepG
    simp only [hpc]
    split <;> simp [Pc.rank]
  | swapped =>
    rw [stepG_swapped env g s hpc]
    simp [Pc.rank]
  | returned e =>
    rw [stepG_returned env g s e hpc, hpc]
    simp [Pc.rank]

/-- The goroutines after goroutine `i` stepped, seen index by index. -/
theorem stepSys_getElem? (env : Env ε α P Opt σ) (i : Nat) (sys : Sys ε α P Opt σ)
    (g : Goroutine ε) (hg : sys.gs[i]? = some g) (j : Nat) :
    (stepSys env i sys).gs[j]? =
      if i = j then some (stepG env g sys.st).1 else sys.gs[j]? := by
  have hi : i < sys.gs.length := by
    rcases List.getElem?_eq_some.1 hg with ⟨hlt, _⟩
    exact hlt
  simp only [stepSys, hg, List.getElem?_set, hi, if_true]

theorem stepSys_st (env : Env ε α P Opt σ) (i : Nat) (sys : Sys ε α P Opt σ)
    (g : Goroutine ε) (hg : sys.gs[i]? = some g) :
    (stepSys env i sys).st = (stepG env g sys.st).2 := by
  simp only [stepSys, hg]

theorem stepSys_none (env : Env ε α P Opt σ) (i : Nat) (sys : Sys ε α P Opt σ)
    (hg : sys.gs[i]? = none) : stepSys env i sys = sys := by
  simp only [stepSys, hg]

theorem stepSys_length (env : Env ε α P Opt σ) (i : Nat) (sys : Sys ε α P Opt σ) :
    (stepSys env i sys).gs.length = sys.gs.length := by
  unfold stepSys
  split
  · rfl
  · simp

/-- A step of a loser on a cleared flag leaves the shared state as it is,
and the goroutine stays a loser. -/
theorem stepG_loser (env : Env ε α P Opt σ) (g : Goroutine ε) (s : State α P Opt σ)
    (hl : loser g) (h : s.c.isActive = 0) :
    (stepG env g s).2 = s ∧ loser (stepG env g s).1 := by
  obtain ⟨hwon, hpc | hpc⟩ := hl
  · rw [stepG_start_cleared env g s hpc h]
    exact ⟨rfl, hwon, Or.inr rfl⟩
  · rw [stepG_returned env g s none hpc]
    exact ⟨rfl, hwon, Or.inr hpc⟩

/-- A step of the winner: it stays the winner. -/
theorem stepG_winner (env : Env ε α P Opt σ) (s0 : State α P Opt σ) (t : Terminal)
    (g : Goroutine ε) (st : State α P Opt σ) (hw : winnerAt env s0 t g st) :
    winnerAt env s0 t (stepG env g st).1 (stepG env g st).2 := by
  rcases hw with ⟨hg, hst⟩ | ⟨hg, hst⟩
  · have hpc : g.pc = Pc.swapped := by rw [hg]
    rw [stepG_swapped env g st hpc, hst, hg]
    exact Or.inr ⟨rfl, rfl⟩
  · have hpc : g.pc = Pc.returned
        (forward env t { s0 with c := cleared s0.c }).1 := by rw [hg]
    rw [stepG_returned env g st _ hpc]
    exact Or.inr ⟨hg, hst⟩

/-- While there is a winner the flag is cleared. -/
theorem winnerAt_flag (env : Env ε α P Opt σ) (s0 : State α P Opt σ) (t : Terminal)
    (g : Goroutine ε) (st : State α P Opt σ) (hw : winnerAt env s0 t g st) :
    st.c = cleared s0.c ∧ g.won = true ∧ g.op = t := by
  rcases hw with ⟨hg, hst⟩ | ⟨hg, hst⟩ <;> rw [hg, hst] <;> exact ⟨rfl, rfl, rfl⟩

theorem Inv_spawn (env : Env ε α P Opt σ) (s0 : State α P Opt σ) (ts : List Terminal) :
    Inv env s0 ts (spawn ts s0) := by
  refine ⟨by simp [spawn], ?_, Or.inl ⟨rfl, ?_⟩⟩
  · intro i g hg
    simp only [spawn, List.getElem?_map] at hg
    cases hts : ts[i]? with
    | none => simp [hts] at hg
    | some t =>
      simp only [hts, Option.map_some', Option.some.injEq] at hg
      rw [← hg]
  · intro i g hg
    simp only [spawn, List.getElem?_map] at hg
    cases hts : ts[i]? with
    | none => simp [hts] at hg
    | some t =>
      simp only [hts, Option.map_some', Option.some.injEq] at hg
      rw [← hg]
      exact ⟨rfl, rfl⟩

theorem Inv_stepSys (env : Env ε α P Opt σ) (s0 : State α P Opt σ)
    (h0 : s0.c.isActive = 1) (ts : List Terminal) (i : Nat) (sys : Sys ε α P Opt σ)
    (hinv : Inv env s0 ts sys) : Inv env s0 ts (stepSys env i sys) := by
  cases hg : sys.gs[i]? with
  | none =>
    rw [stepSys_none env i sys hg]
    exact hinv
  | some g =>
    obtain ⟨hlen, hops, hmain⟩ := hinv
    have hget := stepSys_getElem? env i sys g hg
    have hst := stepSys_st env i sys g hg
    refine ⟨by rw [stepSys_length]; exact hlen, ?_, ?_⟩
    · intro k gk hk
      rw [hget k] at hk
      by_cases hik : i = k
      · rw [if_pos hik, Option.some.injEq] at hk
        rw [← hk, stepG_op, ← hik]
        exact hops i g hg
      · rw [if_neg hik] at hk
        exact hops k gk hk
    · rcases hmain with ⟨hs, hall⟩ | ⟨w, gw, t, htw, hgw, hwin, hlos⟩
      · obtain ⟨hpc, _⟩ := hall i g hg
        have hstep := stepG_start_active env g sys.st hpc (by rw [hs]; exact h0)
        refine Or.inr ⟨i, _, g.op, hops i g hg, by rw [hget i, if_pos rfl], ?_, ?_⟩
        · rw [hst, hstep, hs]
          exact Or.inl ⟨rfl, rfl⟩
        · intro j gj hji hj
          rw [hget j, if_neg (Ne.symm hji)] at hj
          exact ⟨(hall j gj hj).2, Or.inl (hall j gj hj).1⟩
      · by_cases hiw : i = w
        · rw [← hiw, hg, Option.some.injEq] at hgw
          rw [← hgw] at hwin
          refine Or.inr ⟨w, _, t, htw, by rw [hget w, if_pos hiw], ?_, ?_⟩
          · rw [hst]
            exact stepG_winner env s0 t g sys.st hwin
          · intro j gj hjw hj
            rw [hget j, if_neg (by omega)] at hj
            exact hlos j gj hjw hj
        · have hflag : sys.st.c.isActive = 0 := by
            rw [(winnerAt_flag env s0 t gw sys.st hwin).1]
            rfl
          obtain ⟨hsame, hl⟩ := stepG_loser env g sys.st (hlos i g hiw hg) hflag
          refine Or.inr ⟨w, gw, t, htw, by rw [hget w, if_neg hiw]; exact hgw, ?_, ?_⟩
          · rw [hst, hsame]
            exact hwin
          · intro j gj hjw hj
            rw [hget j] at hj
            by_cases hij : i = j
            · rw [if_pos hij, Option.some.injEq] at hj
              rw [← hj]
              exact hl
            · rw [if_neg hij] at hj
              exact hlos j gj hjw hj

theorem Inv_exec (env : Env ε α P Opt σ) (s0 : State α P Opt σ)
    (h0 : s0.c.isActive = 1) (ts : List Terminal) (sched : List Nat)
    (sys : Sys ε α P Opt σ) (hinv : Inv env s0 ts sys) :
    Inv env s0 ts (exec env sched sys) := by
  induction sched generalizing sys with
  | nil => exact hinv
  | cons i rest ih => exact ih _ (Inv_stepSys env s0 h0 ts i sys hinv)

/-- Under the invariant two goroutines that have won are the same one. -/
theorem Inv_winner_unique (env : Env ε α P Opt σ) (s0 : State α P Opt σ)
    (ts : List Terminal) (sys : Sys ε α P Opt σ) (hinv : Inv env s0 ts sys)
    (i j : Nat) (gi gj : Goroutine ε) (hi : sys.gs[i]? = some gi)
    (hj : sys.gs[j]? = some gj) (hwi : gi.won = true) (hwj : gj.won = true) :
    i = j := by
  obtain ⟨_, _, ⟨_, hall⟩ | ⟨w, gw, t, _, _, _, hlos⟩⟩ := hinv
  · have := (hall i gi hi).2
    simp [hwi] at this
  · have hiw : i = w := by
      by_contra hne
      have := (hlos i gi hne hi).1
      simp [hwi] at this
    have hjw : j = w := by
      by_contra hne
      have := (hlos j gj hne hj).1
      simp [hwj] at this
    omega

/-- Under the invariant the pool has been invoked at most once, by one of
the calls issued, with the cleared handle. -/
theorem Inv_calls (env : Env ε α P Opt σ) (s0 : State α P Opt σ)
    (ts : List Terminal) (sys : Sys ε α P Opt σ) (hinv : Inv env s0 ts sys) :
    sys.st.calls = s0.calls ∨
      ∃ t ∈ ts, sys.st.calls = s0.calls ++ [poolCall t (cleared s0.c)] := by
  obtain ⟨_, _, ⟨hs, _⟩ | ⟨w, gw, t, htw, _, hwin, _⟩⟩ := hinv
  · exact Or.inl (by rw [hs])
  · rcases hwin with ⟨_, hst⟩ | ⟨_, hst⟩
    · exact Or.inl (by rw [hst])
    · exact Or.inr ⟨t, List.getElem?_mem htw, by rw [hst]; rfl⟩

/-- Progress: along a schedule, goroutine `j` advances by the number of
times it is scheduled, up to its return. -/
theorem exec_rank (env : Env ε α P Opt σ) (sched : List Nat) (sys : Sys ε α P Opt σ)
    (j : Nat) (g : Goroutine ε) (hg : sys.gs[j]? = some g) :
    ∃ g1, (exec env sched sys).gs[j]? = some g1 ∧
      min 2 (g.pc.rank + sched.count j) ≤ g1.pc.rank := by
  induction sched generalizing sys g with
  | nil => exact ⟨g, hg, by simp⟩
  | cons i rest ih =>
    simp only [exec]
    have hstep : ∃ g2, (stepSys env i sys).gs[j]? = some g2 ∧
        min 2 (g.pc.rank + if i = j then 1 else 0) ≤ g2.pc.rank := by
      cases hgi : sys.gs[i]? with
      | none =>
        rw [stepSys_none env i sys hgi]
        have hij : i ≠ j := by
          intro h
          rw [h, hg] at hgi
          cases hgi
        exact ⟨g, hg, by simp [hij]⟩
      | some gi =>
        rw [stepSys_getElem? env i sys gi hgi j]
        by_cases hij : i = j
        · rw [if_pos hij]
          rw [hij, hg, Option.some.injEq] at hgi
          rw [← hgi]
          exact ⟨_, rfl, by rw [if_pos hij]; exact stepG_rank env g sys.st⟩
        · rw [if_neg hij]
          exact ⟨g, hg, by simp [hij]⟩
    obtain ⟨g2, hg2, hr2⟩ := hstep
    obtain ⟨g1, hg1, hr1⟩ := ih _ g2 hg2
    refine ⟨g1, hg1, ?_⟩
    rw [List.count_cons]
    by_cases hij : i = j
    · simp only [hij, if_true, beq_self_eq_true] at hr2 ⊢
      omega
    · have hb : (i == j) = false := by simpa using hij
      simp only [hij, if_false, hb, Bool.false_eq_true, Nat.add_zero] at hr2 ⊢
      omega

/-- A goroutine of rank two has returned. -/
theorem isReturned_of_rank (pc : Pc ε) (h : 2 ≤ pc.rank) : pc.isReturned = true := by
  cases pc with
  | start => simp [Pc.rank] at h
  | swapped => simp [Pc.rank] at h
  | returned e => rfl

/-- Under the invariant, once all goroutines of a non-empty set of calls have
returned: one of them is the winner and has returned what its call into the
pool returned, the shared state is the one that call left, and every other
goroutine is a loser that has returned nil. -/
theorem Inv_allReturned (env : Env ε α P Opt σ) (s0 : State α P Opt σ)
    (ts : List Terminal) (sys : Sys ε α P Opt σ) (hinv : Inv env s0 ts sys)
    (hne : ts ≠ []) (hall : allReturned sys = true) :
    ∃ w t, ts[w]? = some t ∧
      sys.gs[w]? = some
        { op := t,
          pc := Pc.returned (forward env t { s0 with c := cleared s0.c }).1,
          won := true } ∧
      sys.st = (forward env t { s0 with c := cleared s0.c }).2 ∧
      ∀ (j : Nat) (g : Goroutine ε), j ≠ w → sys.gs[j]? = some g →
        g.won = false ∧ g.pc = Pc.returned none := by
  have hret : ∀ (i : Nat) (g : Goroutine ε), sys.gs[i]? = some g →
      g.pc.isReturned = true := by
    intro i g hg
    exact (List.all_eq_true.1 hall) g (List.getElem?_mem hg)
  obtain ⟨hlen, _, ⟨_, hstart⟩ | ⟨w, gw, t, htw, hgw, hwin, hlos⟩⟩ := hinv
  · exfalso
    have hpos : 0 < sys.gs.length := by
      rw [hlen]
      exact List.length_pos.2 hne
    have h0 : sys.gs[0]? = some (sys.gs.get ⟨0, hpos⟩) := by
      simp [List.getElem?_eq_getElem hpos]
    have h1 := hret 0 _ h0
    rw [(hstart 0 _ h0).1] at h1
    simp [Pc.isReturned] at h1
  · rcases hwin with ⟨hg, _⟩ | ⟨hg, hst⟩
    · exfalso
      have h1 := hret w gw hgw
      rw [hg] at h1
      simp [Pc.isReturned] at h1
    · refine ⟨w, t, htw, by rw [hgw, hg], hst, ?_⟩
      intro j g hjw hj
      obtain ⟨hwon, hpc | hpc⟩ := hlos j g hjw hj
      · exfalso
        have h1 := hret j g hj
        rw [hpc] at h1
        simp [Pc.isReturned] at h1
      · exact ⟨hwon, hpc⟩

/-- A schedule that lets every goroutine step twice lets them all return. -/
theorem exec_allReturned (env : Env ε α P Opt σ) (ts : List Terminal)
    (s : State α P Opt σ) (sched : List Nat)
    (hlen : (exec env sched (spawn ts s)).gs.length = ts.length)
    (hfair : ∀ i, i < ts.length → 2 ≤ sched.count i) :
    allReturned (exec env sched (spawn ts s)) = true := by
  apply List.all_eq_true.2
  intro g hg
  obtain ⟨j, hj⟩ := List.mem_iff_getElem?.1 hg
  have hjlt : j < ts.length := by
    rw [← hlen]
    exact (List.getElem?_eq_some.1 hj).1
  have hsp : (spawn ts s : Sys ε α P Opt σ).gs[j]? =
      some { op := ts.get ⟨j, hjlt⟩, pc := Pc.start, won := false } := by
    simp [spawn, List.getElem?_eq_getElem hjlt]
  obtain ⟨g1, hg1, hr⟩ := exec_rank env sched (spawn ts s) j _ hsp
  rw [hj, Option.some.injEq] at hg1
  rw [← hg1] at hr
  have h2 := hfair j hjlt
  apply isReturned_of_rank
  change min 2 (0 + sched.count j) ≤ g.pc.rank at hr
  omega

/-- A goroutine running alone: its two steps are the method `Release`. -/
theorem exec_alone_Release (env : Env ε α P Opt σ) (s : State α P Opt σ) :
    (exec env [0, 0] (spawn [Terminal.Release] s)).st =
      (ManagedHandleImpl.Release env s).2 ∧
    (exec env [0, 0] (spawn [Terminal.Release] s)).gs.map (fun g => g.pc) =
      [Pc.returned (ManagedHandleImpl.Release env s).1] := by
  by_cases h : s.c.isActive = 1
  · rw [Release_of_active env s h]
    simp [exec, stepSys, spawn, stepG, CompareAndSwapInt32, h, forward, poolResult,
      poolCall, cleared]
  · rw [Release_of_not_active env s h]
    obtain ⟨⟨l, hd, p, a, o⟩, m, cl⟩ := s
    simp only at h
    simp [exec, stepSys, spawn, stepG, CompareAndSwapInt32, h]

/-- A goroutine running alone: its two steps are the method `Discard`. -/
theorem exec_alone_Discard (env : Env ε α P Opt σ) (s : State α P Opt σ) :
    (exec env [0, 0] (spawn [Terminal.Discard] s)).st =
      (ManagedHandleImpl.Discard env s).2 ∧
    (exec env [0, 0] (spawn [Terminal.Discard] s)).gs.map (fun g => g.pc) =
      [Pc.returned (ManagedHandleImpl.Discard env s).1] := by
  by_cases h : s.c.isActive = 1
  · rw [Discard_of_active env s h]
    simp [exec, stepSys, spawn, stepG, CompareAndSwapInt32, h, forward, poolResult,
      poolCall, cleared]
  · rw [Discard_of_not_active env s h]
    obtain ⟨⟨l, hd, p, a, o⟩, m, cl⟩ := s
    simp only at h
    simp [exec, stepSys, spawn, stepG, CompareAndSwapInt32, h]

/-- The outcome of a completed interleaving of one `Release` and one
`Discard` under the invariant. -/
theorem Inv_pair (env : Env ε α P Opt σ) (s0 : State α P Opt σ)
    (sys : Sys ε α P Opt σ)
    (hinv : Inv env s0 [Terminal.Release, Terminal.Discard] sys)
    (hall : allReturned sys = true) :
    ∃ t, sys.st = (forward env t { s0 with c := cleared s0.c }).2 ∧
      ((forward env t { s0 with c := cleared s0.c }).1 = none →
        sys.gs.map (fun g => g.pc) = [Pc.returned none, Pc.returned none]) := by
  obtain ⟨w, t, htw, hgw, hst, hlos⟩ :=
    Inv_allReturned env s0 _ sys hinv (by simp) hall
  refine ⟨t, hst, ?_⟩
  intro hnil
  rw [hnil] at hgw
  have hlen : sys.gs.length = 2 := hinv.1
  have hpc : ∀ (j : Nat) (g : Goroutine ε), sys.gs[j]? = some g →
      g.pc = Pc.returned none := by
    intro j g hj
    by_cases hjw : j = w
    · rw [hjw, hgw, Option.some.injEq] at hj
      rw [← hj]
    · exact (hlos j g hjw hj).2
  match hgs : sys.gs, hlen with
  | [a, b], _ =>
    have ha := hpc 0 a (by rw [hgs]; rfl)
    have hb := hpc 1 b (by rw [hgs]; rfl)
    simp [ha, hb]

/-! ### Facts about pools that call back -/

/-- A method called on a handle whose flag is `0` returns at once, at any
positive depth bound, and leaves the whole state as it is. -/
theorem callOp_cleared (env : REnv ε α P Opt σ) (n : Nat) (o : Op)
    (s : State α P Opt σ) (h : s.c.isActive = 0) :
    callOp env (n + 1) o s = some (terminatedAnswer env s.c o, s) := by
  obtain ⟨⟨l, hd, p, a, op⟩, m, cl⟩ := s
  simp only at h
  subst h
  cases o <;> simp [callOp, terminatedAnswer, LoadInt32, CompareAndSwapInt32]

/-- A pool method run on a handle whose flag is `0`: each of its calls into
the handle gets the answer of a terminated handle, and only the pool-side
memory changes. -/
theorem runProg_cleared (env : REnv ε α P Opt σ) (n : Nat) (prog : PoolProg ε α P σ)
    (st : State α P Opt σ) (h : st.c.isActive = 0) :
    runProg (callOp env (n + 1)) prog st =
      some ((runAnswered (terminatedAnswer env st.c) prog).1,
        { st with mem := (runAnswered (terminatedAnswer env st.c) prog).2 }) := by
  induction prog generalizing st with
  | ret err m => rfl
  | invoke o m k ih =>
    have hc : ({ st with mem := m } : State α P Opt σ).c.isActive = 0 := h
    simp only [runProg]
    rw [callOp_cleared env n o _ hc]
    simp only
    rw [ih _ _ _ hc]
    rfl

/-- How `Release` runs on a handle whose flag is `1`: the flag is cleared and
the invocation recorded, then the pool method runs on that state. -/
theorem callOp_Release_unfold (env : REnv ε α P Opt σ) (n : Nat)
    (s : State α P Opt σ) (h : s.c.isActive = 1) :
    callOp env (n + 1) Op.Release s =
      (runProg (callOp env n) ((env.pools s.c.pool).Release (cleared s.c) s.mem)
        { c := cleared s.c, mem := s.mem,
          calls := s.calls ++ [PoolCall.Release (cleared s.c)] }).map
        (fun r => (Ret.Release r.1, r.2)) := by
  simp only [callOp, CompareAndSwapInt32, h, if_true, cleared]
  split <;> rename_i heq <;> simp [heq]

/-- How `Discard` runs on a handle whose flag is `1`. -/
theorem callOp_Discard_unfold (env : REnv ε α P Opt σ) (n : Nat)
    (s : State α P Opt σ) (h : s.c.isActive = 1) :
    callOp env (n + 1) Op.Discard s =
      (runProg (callOp env n) ((env.pools s.c.pool).Discard (cleared s.c) s.mem)
        { c := cleared s.c, mem := s.mem,
          calls := s.calls ++ [PoolCall.Discard (cleared s.c)] }).map
        (fun r => (Ret.Discard r.1, r.2)) := by
  simp only [callOp, CompareAndSwapInt32, h, if_true, cleared]
  split <;> rename_i heq <;> simp [heq]

/-- With pools that do not call back, a call at any positive depth bound is
the method call `step`. -/
theorem callOp_toREnv (env : Env ε α P Opt σ) (n : Nat) (o : Op)
    (s : State α P Opt σ) : callOp env.toREnv (n + 1) o s = some (step env o s) := by
  cases o
  · rfl
  · by_cases h0 : s.c.isActive = 0
    · simp [callOp, step, Handle_of_cleared env s h0, LoadInt32, h0, Env.toREnv]
    · simp [callOp, step, Handle_of_set env s h0, LoadInt32, h0]
  · rfl
  · by_cases h1 : s.c.isActive = 1
    · rw [callOp_Release_unfold env.toREnv n s h1]
      simp [step, Release_of_active env s h1, Env.toREnv, ResourcePool.toReentrant,
        runProg]
    · simp [callOp, step, Release_of_not_active env s h1, CompareAndSwapInt32, h1]
  · by_cases h1 : s.c.isActive = 1
    · rw [callOp_Discard_unfold env.toREnv n s h1]
      simp [step, Discard_of_active env s h1, Env.toREnv, ResourcePool.toReentrant,
        runProg]
    · simp [callOp, step, Discard_of_not_active env s h1, CompareAndSwapInt32, h1]

/-! ### The release/discard life cycle -/

/-- C1: starting from a newly constructed handle, any non-empty sequence of
`Release` and `Discard` calls executed one after another makes exactly one
invocation on the pool in total, with the handle as argument: the pool's
`Release` if the first call is `Release`, the pool's `Discard` if the first
call is `Discard`. -/
theorem exactly_once_forwarding (env : Env ε α P Opt σ) (loc : String) (h : α)
    (p : P) (opts : Opt) (mem : σ) (first : Op) (rest : List Op)
    (hops : ∀ o ∈ first :: rest, o = Op.Release ∨ o = Op.Discard) :
    (first = Op.Release →
      (run env (first :: rest) (fresh loc h p opts mem)).2.calls =
        [PoolCall.Release (cleared (NewManagedHandle loc h p opts))]) ∧
    (first = Op.Discard →
      (run env (first :: rest) (fresh loc h p opts mem)).2.calls =
        [PoolCall.Discard (cleared (NewManagedHandle loc h p opts))]) ∧
    ((run env (first :: rest) (fresh loc h p opts mem)).2.calls).length = 1 := by
  have hfirst : first.isTerminal = true := by
    rcases hops first (List.mem_cons_self _ _) with h1 | h1 <;> rw [h1] <;> rfl
  have hstep := step_terminal_of_active env first (fresh loc h p opts mem) hfirst
    (fresh_isActive loc h p opts mem)
  have hrun : (run env (first :: rest) (fresh loc h p opts mem)).2 =
      (step env first (fresh loc h p opts mem)).2 := by
    simp only [run]
    apply run_of_cleared
    rw [hstep.1]
    rfl
  rw [hrun, hstep.2]
  refine ⟨?_, ?_, ?_⟩
  · intro h1
    simp [h1, fresh]
  · intro h1
    simp [h1, fresh]
  · simp [fresh]

/-- Witness of C1 on a concrete pool: `Discard, Release, Release`. -/
theorem exactly_once_forwarding_witness :
    (run demoEnv [Op.Discard, Op.Release, Op.Release] (demoFresh 1)).2.calls =
      [PoolCall.Discard (cleared (NewManagedHandle "host:1" "R" 1 ()))] :=
  (exactly_once_forwarding demoEnv "host:1" "R" 1 () [] Op.Discard
    [Op.Release, Op.Release] (by decide)).2.1 rfl

/-- C2: on an active handle, `Release` sets the flag to terminated, invokes
the pool's `Release` exactly once with this handle as argument (and nothing
else on the pool), and returns exactly what that pool call returned. -/
theorem Release_active (env : Env ε α P Opt σ) (s : State α P Opt σ)
    (hact : Active s.c) :
    Terminated (ManagedHandleImpl.Release env s).2.c ∧
    (ManagedHandleImpl.Release env s).2.c = cleared s.c ∧
    (ManagedHandleImpl.Release env s).2.calls =
      s.calls ++ [PoolCall.Release (cleared s.c)] ∧
    (ManagedHandleImpl.Release env s).1 =
      ((env.pools s.c.pool).Release (cleared s.c) s.mem).1 ∧
    (ManagedHandleImpl.Release env s).2.mem =
      ((env.pools s.c.pool).Release (cleared s.c) s.mem).2 := by
  rw [Release_of_active env s hact]
  exact ⟨rfl, rfl, rfl, rfl, rfl⟩

/-- Witness of C2: releasing a new handle of the failing pool `7`. -/
theorem Release_active_witness :
    Active (demoFresh 7).c ∧
    (ManagedHandleImpl.Release demoEnv (demoFresh 7)).1 = some "disk full" ∧
    (ManagedHandleImpl.Release demoEnv (demoFresh 7)).2.calls =
      [PoolCall.Release (cleared (demoFresh 7).c)] :=
  ⟨by decide,
    (Release_active demoEnv (demoFresh 7) (by decide)).2.2.2.1,
    (Release_active demoEnv (demoFresh 7) (by decide)).2.2.1⟩

/-- C3: on an active handle, `Discard` sets the flag to terminated, invokes
the pool's `Discard` exactly once with this handle as argument (never the
pool's `Release`), and returns exactly what that pool call returned. -/
theorem Discard_active (env : Env ε α P Opt σ) (s : State α P Opt σ)
    (hact : Active s.c) :
    Terminated (ManagedHandleImpl.Discard env s).2.c ∧
    (ManagedHandleImpl.Discard env s).2.c = cleared s.c ∧
    (ManagedHandleImpl.Discard env s).2.calls =
      s.calls ++ [PoolCall.Discard (cleared s.c)] ∧
    (ManagedHandleImpl.Discard env s).1 =
      ((env.pools s.c.pool).Discard (cleared s.c) s.mem).1 ∧
    (ManagedHandleImpl.Discard env s).2.mem =
      ((env.pools s.c.pool).Discard (cleared s.c) s.mem).2 := by
  rw [Discard_of_active env s hact]
  exact ⟨rfl, rfl, rfl, rfl, rfl⟩

/-- Witness of C3: discarding a new handle of pool `1`, whose `Discard`
fails. -/
theorem Discard_active_witness :
    Active (demoFresh 1).c ∧
    (ManagedHandleImpl.Discard demoEnv (demoFresh 1)).1 = some "disk full" ∧
    (ManagedHandleImpl.Discard demoEnv (demoFresh 1)).2.calls =
      [PoolCall.Discard (cleared (demoFresh 1).c)] :=
  ⟨by decide,
    (Discard_active demoEnv (demoFresh 1) (by decide)).2.2.2.1,
    (Discard_active demoEnv (demoFresh 1) (by decide)).2.2.1⟩

/-- C4: on a terminated handle, `Release` and `Discard` both return `nil`
and leave the whole state unchanged: no field of the handle changes and no
invocation is made on the pool. -/
theorem terminal_call_on_terminated (env : Env ε α P Opt σ) (s : State α P Opt σ)
    (hterm : Terminated s.c) :
    ManagedHandleImpl.Release env s = (none, s) ∧
    ManagedHandleImpl.Discard env s = (none, s) := by
  have h1 : s.c.isActive ≠ 1 := by
    have h0 : s.c.isActive = 0 := hterm
    omega
  exact ⟨Release_of_not_active env s h1, Discard_of_not_active env s h1⟩

/-- Witness of C4: the state reached by one `Release` on a new handle. -/
theorem terminal_call_on_terminated_witness :
    Terminated (ManagedHandleImpl.Release demoEnv (demoFresh 1)).2.c ∧
    ManagedHandleImpl.Discard demoEnv (ManagedHandleImpl.Release demoEnv (demoFresh 1)).2 =
      (none, (ManagedHandleImpl.Release demoEnv (demoFresh 1)).2) :=
  ⟨by decide,
    (terminal_call_on_terminated demoEnv
      (ManagedHandleImpl.Release demoEnv (demoFresh 1)).2 (by decide)).2⟩

/-- C5: once a terminal call (`Release` or `Discard`) has been made on an
active handle, `Handle` returns a non-nil error after any further sequence of
calls whatsoever, and the handle is terminated there; no method call takes a
terminated handle to another state. -/
theorem post_termination_access_fails (env : Env ε α P Opt σ) (s : State α P Opt σ)
    (hact : Active s.c) (t : Op) (ht : t = Op.Release ∨ t = Op.Discard) :
    (∀ ops : List Op,
      (ManagedHandleImpl.Handle env (run env (t :: ops) s).2).1.2 =
          some (env.errorsNew "Resource handle is no longer valid") ∧
        Terminated (run env (t :: ops) s).2.c) ∧
    (∀ (o : Op) (s0 : State α P Opt σ), Terminated s0.c →
      Terminated (step env o s0).2.c) := by
  have hterm : t.isTerminal = true := by
    rcases ht with h1 | h1 <;> rw [h1] <;> rfl
  have hc : (step env t s).2.c.isActive = 0 := by
    rw [(step_terminal_of_active env t s hterm hact).1]
    rfl
  refine ⟨?_, ?_⟩
  · intro ops
    have hrun : (run env (t :: ops) s).2 = (step env t s).2 := by
      simp only [run]
      exact run_of_cleared env ops _ hc
    rw [hrun, Handle_of_cleared env _ hc]
    exact ⟨rfl, hc⟩
  · intro o s0 h0
    rw [step_of_cleared env o s0 h0]
    exact h0

/-- Witness of C5: `Discard`, then a mix of calls, then `Handle`. -/
theorem post_termination_access_fails_witness :
    Active (demoFresh 1).c ∧
    (ManagedHandleImpl.Handle demoEnv
      (run demoEnv [Op.Discard, Op.Handle, Op.Release, Op.Owner, Op.Discard]
        (demoFresh 1)).2).1.2 = some "Resource handle is no longer valid" :=
  ⟨by decide,
    ((post_termination_access_fails demoEnv (demoFresh 1) (by decide) Op.Discard
      (Or.inr rfl)).1 [Op.Handle, Op.Release, Op.Owner, Op.Discard]).1⟩

/-- C6: on a handle built by `NewManagedHandle` on which only non-terminal
calls have been made so far, `Handle` returns the resource given to the
constructor together with a nil error, for any number of repeated calls, and
leaves the whole state (handle, pool-side memory, record of pool
invocations) unchanged. -/
theorem pre_termination_access_succeeds (env : Env ε α P Opt σ) (loc : String)
    (h : α) (p : P) (opts : Opt) (mem : σ) (ops : List Op)
    (hops : ∀ o ∈ ops, o.isTerminal = false) (n : Nat) :
    ManagedHandleImpl.Handle env (run env ops (fresh loc h p opts mem)).2 =
      ((h, none), (run env ops (fresh loc h p opts mem)).2) ∧
    run env (List.replicate n Op.Handle) (run env ops (fresh loc h p opts mem)).2 =
      (List.replicate n (Ret.Handle h none),
        (run env ops (fresh loc h p opts mem)).2) ∧
    (run env (List.replicate n Op.Handle)
      (run env ops (fresh loc h p opts mem)).2).2.calls = [] := by
  rw [run_of_not_terminal env ops _ hops]
  have hne : (fresh loc h p opts mem : State α P Opt σ).c.isActive ≠ 0 := by
    rw [fresh_isActive]
    decide
  refine ⟨Handle_of_set env _ hne, run_replicate_Handle env n _ hne, ?_⟩
  rw [run_replicate_Handle env n _ hne]
  rfl

/-- Witness of C6: three `Handle` calls after `Owner, Handle,
ResourceLocation` on a new handle. -/
theorem pre_termination_access_succeeds_witness :
    run demoEnv (List.replicate 3 Op.Handle)
        (run demoEnv [Op.Owner, Op.Handle, Op.ResourceLocation] (demoFresh 1)).2 =
      (List.replicate 3 (Ret.Handle "R" none),
        (run demoEnv [Op.Owner, Op.Handle, Op.ResourceLocation] (demoFresh 1)).2) :=
  (pre_termination_access_succeeds demoEnv "host:1" "R" 1 () []
    [Op.Owner, Op.Handle, Op.ResourceLocation] (by decide) 3).2.1

/-- C7: when the pool's `Release` (resp. `Discard`) returns an error `e` on
the winning `Release` (resp. `Discard`) call of an active handle, that call
returns `e`, and the handle is terminated all the same: a following `Handle`
returns an error, and a following `Release` or `Discard` returns nil and
leaves the state, hence the record of pool invocations, unchanged. -/
theorem pool_error_propagates (env : Env ε α P Opt σ) (s : State α P Opt σ)
    (hact : Active s.c) (e : ε) :
    (((env.pools s.c.pool).Release (cleared s.c) s.mem).1 = some e →
      (ManagedHandleImpl.Release env s).1 = some e ∧
      Terminated (ManagedHandleImpl.Release env s).2.c ∧
      (ManagedHandleImpl.Handle env (ManagedHandleImpl.Release env s).2).1.2 =
        some (env.errorsNew "Resource handle is no longer valid") ∧
      ManagedHandleImpl.Release env (ManagedHandleImpl.Release env s).2 =
        (none, (ManagedHandleImpl.Release env s).2) ∧
      ManagedHandleImpl.Discard env (ManagedHandleImpl.Release env s).2 =
        (none, (ManagedHandleImpl.Release env s).2)) ∧
    (((env.pools s.c.pool).Discard (cleared s.c) s.mem).1 = some e →
      (ManagedHandleImpl.Discard env s).1 = some e ∧
      Terminated (ManagedHandleImpl.Discard env s).2.c ∧
      (ManagedHandleImpl.Handle env (ManagedHandleImpl.Discard env s).2).1.2 =
        some (env.errorsNew "Resource handle is no longer valid") ∧
      ManagedHandleImpl.Release env (ManagedHandleImpl.Discard env s).2 =
        (none, (ManagedHandleImpl.Discard env s).2) ∧
      ManagedHandleImpl.Discard env (ManagedHandleImpl.Discard env s).2 =
        (none, (ManagedHandleImpl.Discard env s).2)) := by
  have hR : (ManagedHandleImpl.Release env s).2.c.isActive = 0 := by
    rw [Release_of_active env s hact]
    rfl
  have hD : (ManagedHandleImpl.Discard env s).2.c.isActive = 0 := by
    rw [Discard_of_active env s hact]
    rfl
  have hR1 : (ManagedHandleImpl.Release env s).2.c.isActive ≠ 1 := by omega
  have hD1 : (ManagedHandleImpl.Discard env s).2.c.isActive ≠ 1 := by omega
  refine ⟨fun he => ⟨?_, hR, ?_, Release_of_not_active env _ hR1,
      Discard_of_not_active env _ hR1⟩,
    fun he => ⟨?_, hD, ?_, Release_of_not_active env _ hD1,
      Discard_of_not_active env _ hD1⟩⟩
  · rw [Release_of_active env s hact]
    exact he
  · rw [Handle_of_cleared env _ hR]
  · rw [Discard_of_active env s hact]
    exact he
  · rw [Handle_of_cleared env _ hD]

/-- Witness of C7: the pool behind reference `7` fails its `Release` with
`"disk full"`. -/
theorem pool_error_propagates_witness :
    Active (demoFresh 7).c ∧
    ((demoEnv.pools (demoFresh 7).c.pool).Release (cleared (demoFresh 7).c)
      (demoFresh 7).mem).1 = some "disk full" ∧
    (ManagedHandleImpl.Release demoEnv (demoFresh 7)).1 = some "disk full" ∧
    Terminated (ManagedHandleImpl.Release demoEnv (demoFresh 7)).2.c ∧
    (ManagedHandleImpl.Handle demoEnv
      (ManagedHandleImpl.Release demoEnv (demoFresh 7)).2).1.2 =
        some "Resource handle is no longer valid" :=
  ⟨by decide, by decide,
    ((pool_error_propagates demoEnv (demoFresh 7) (by decide) "disk full").1
      (by decide)).1,
    ((pool_error_propagates demoEnv (demoFresh 7) (by decide) "disk full").1
      (by decide)).2.1,
    ((pool_error_propagates demoEnv (demoFresh 7) (by decide) "disk full").1
      (by decide)).2.2.1⟩

/-- C8: `Release` twice in a row (resp. `Discard` twice in a row) on a new
handle: the second call returns nil, the pool is invoked once in total,
whatever the first call's pool-side result, and the state after the two calls
is the state after one. -/
theorem terminal_call_idempotent (env : Env ε α P Opt σ) (loc : String) (h : α)
    (p : P) (opts : Opt) (mem : σ) :
    ((run env [Op.Release, Op.Release] (fresh loc h p opts mem)).1 =
        [Ret.Release
            ((env.pools p).Release (cleared (NewManagedHandle loc h p opts)) mem).1,
          Ret.Release none] ∧
      (run env [Op.Release, Op.Release] (fresh loc h p opts mem)).2.calls =
        [PoolCall.Release (cleared (NewManagedHandle loc h p opts))] ∧
      (run env [Op.Release, Op.Release] (fresh loc h p opts mem)).2 =
        (run env [Op.Release] (fresh loc h p opts mem)).2) ∧
    ((run env [Op.Discard, Op.Discard] (fresh loc h p opts mem)).1 =
        [Ret.Discard
            ((env.pools p).Discard (cleared (NewManagedHandle loc h p opts)) mem).1,
          Ret.Discard none] ∧
      (run env [Op.Discard, Op.Discard] (fresh loc h p opts mem)).2.calls =
        [PoolCall.Discard (cleared (NewManagedHandle loc h p opts))] ∧
      (run env [Op.Discard, Op.Discard] (fresh loc h p opts mem)).2 =
        (run env [Op.Discard] (fresh loc h p opts mem)).2) := by
  obtain ⟨r1, r2, r3⟩ := run_Release_then env loc h p opts mem Op.Release rfl
  obtain ⟨d1, d2, d3⟩ := run_Discard_then env loc h p opts mem Op.Discard rfl
  refine ⟨⟨?_, ?_, r2⟩, ⟨?_, ?_, d2⟩⟩
  · rw [r1]
    rfl
  · rw [r2, r3]
  · rw [d1]
    rfl
  · rw [d2, d3]

/-- C9: on a new handle, `Discard` after `Release` returns nil and the pool's
`Discard` is not invoked (the only pool invocation is the `Release`), and
`Release` after `Discard` returns nil and the pool's `Release` is not invoked:
the second, different terminal call changes nothing. -/
theorem cross_termination_noop (env : Env ε α P Opt σ) (loc : String) (h : α)
    (p : P) (opts : Opt) (mem : σ) :
    ((run env [Op.Release, Op.Discard] (fresh loc h p opts mem)).1 =
        [Ret.Release
            ((env.pools p).Release (cleared (NewManagedHandle loc h p opts)) mem).1,
          Ret.Discard none] ∧
      (run env [Op.Release, Op.Discard] (fresh loc h p opts mem)).2.calls =
        [PoolCall.Release (cleared (NewManagedHandle loc h p opts))] ∧
      (run env [Op.Release, Op.Discard] (fresh loc h p opts mem)).2 =
        (run env [Op.Release] (fresh loc h p opts mem)).2) ∧
    ((run env [Op.Discard, Op.Release] (fresh loc h p opts mem)).1 =
        [Ret.Discard
            ((env.pools p).Discard (cleared (NewManagedHandle loc h p opts)) mem).1,
          Ret.Release none] ∧
      (run env [Op.Discard, Op.Release] (fresh loc h p opts mem)).2.calls =
        [PoolCall.Discard (cleared (NewManagedHandle loc h p opts))] ∧
      (run env [Op.Discard, Op.Release] (fresh loc h p opts mem)).2 =
        (run env [Op.Discard] (fresh loc h p opts mem)).2) := by
  obtain ⟨r1, r2, r3⟩ := run_Release_then env loc h p opts mem Op.Discard rfl
  obtain ⟨d1, d2, d3⟩ := run_Discard_then env loc h p opts mem Op.Release rfl
  refine ⟨⟨?_, ?_, r2⟩, ⟨?_, ?_, d2⟩⟩
  · rw [r1]
    rfl
  · rw [r2, r3]
  · rw [d1]
    rfl
  · rw [d2, d3]

/-- C10: no method changes the `location`, `handle`, `pool` (or `options`)
field: in every state reachable from `NewManagedHandle(location, resource,
pool, options)` these fields hold the constructor's arguments,
`ResourceLocation` returns `location` and `Owner` returns `pool`, both leaving
the whole state unchanged (so no pool invocation); and from any state, a
method call changes no field of the handle other than `isActive`. -/
theorem fields_immutable (env : Env ε α P Opt σ) (loc : String) (h : α) (p : P)
    (opts : Opt) (mem : σ) (ops : List Op) :
    ((run env ops (fresh loc h p opts mem)).2.c.location = loc ∧
      (run env ops (fresh loc h p opts mem)).2.c.handle = h ∧
      (run env ops (fresh loc h p opts mem)).2.c.pool = p ∧
      (run env ops (fresh loc h p opts mem)).2.c.options = opts) ∧
    ManagedHandleImpl.ResourceLocation (run env ops (fresh loc h p opts mem)).2 =
      (loc, (run env ops (fresh loc h p opts mem)).2) ∧
    ManagedHandleImpl.Owner (run env ops (fresh loc h p opts mem)).2 =
      (p, (run env ops (fresh loc h p opts mem)).2) ∧
    (∀ (o : Op) (s : State α P Opt σ),
      (step env o s).2.c =
        { s.c with isActive := (step env o s).2.c.isActive }) := by
  have hf := run_frame env ops (fresh loc h p opts mem)
  have hloc : (run env ops (fresh loc h p opts mem)).2.c.location = loc := hf.1
  have hpool : (run env ops (fresh loc h p opts mem)).2.c.pool = p := hf.2.2.1
  refine ⟨⟨hloc, hf.2.1, hpool, hf.2.2.2⟩, ?_, ?_, ?_⟩
  · simp only [ManagedHandleImpl.ResourceLocation, hloc]
  · simp only [ManagedHandleImpl.Owner, hpool]
  · intro o s
    obtain ⟨k1, k2, k3, k4⟩ := step_frame env o s
    cases hc : (step env o s).2.c with
    | mk l1 h1 p1 a1 o1 =>
      rw [hc] at k1 k2 k3 k4
      simp only at k1 k2 k3 k4
      subst k1 k2 k3 k4
      rfl

/-! ### Stale resource, options, and the two tests of the flag -/

/-- The flag holds `0` or `1` in every state reached from a new handle. -/
theorem run_fresh_flag (env : Env ε α P Opt σ) (loc : String) (h : α) (p : P)
    (opts : Opt) (mem : σ) (ops : List Op) :
    (run env ops (fresh loc h p opts mem)).2.c.isActive = 0 ∨
    (run env ops (fresh loc h p opts mem)).2.c.isActive = 1 := by
  suffices H : ∀ (l : List Op) (s : State α P Opt σ),
      (s.c.isActive = 0 ∨ s.c.isActive = 1) →
      ((run env l s).2.c.isActive = 0 ∨ (run env l s).2.c.isActive = 1) from
    H ops _ (Or.inr (fresh_isActive loc h p opts mem))
  intro l
  induction l with
  | nil => exact fun s hs => hs
  | cons o os ih =>
    intro s hs
    simp only [run]
    apply ih
    rcases hs with h0 | h1
    · rw [step_of_cleared env o s h0]
      exact Or.inl h0
    · by_cases ht : o.isTerminal = true
      · left
        rw [(step_terminal_of_active env o s ht h1).1]
        rfl
      · rw [step_of_not_terminal env o s (by simpa using ht)]
        exact Or.inr h1

/-- One method call on two states that differ in the handle's options
only. -/
theorem step_withOptions (env : Env ε α P Opt σ) (hpool : IgnoresOptions env)
    (o1 : Opt) (op : Op) (s : State α P Opt σ) :
    step env op (s.withOptions o1) =
      ((step env op s).1, (step env op s).2.withOptions o1) := by
  cases op
  · rfl
  · by_cases h0 : s.c.isActive = 0
    · have h0w : (s.withOptions o1).c.isActive = 0 := h0
      simp only [step]
      rw [Handle_of_cleared env s h0, Handle_of_cleared env _ h0w]
      rfl
    · have h0w : (s.withOptions o1).c.isActive ≠ 0 := h0
      simp only [step]
      rw [Handle_of_set env s h0, Handle_of_set env _ h0w]
      rfl
  · rfl
  · by_cases h1 : s.c.isActive = 1
    · have h1w : (s.withOptions o1).c.isActive = 1 := h1
      have hp := (hpool s.c.pool (cleared s.c) o1 s.mem).1
      have hc : cleared (s.withOptions o1).c = (cleared s.c).withOptions o1 := rfl
      have hpw : (s.withOptions o1).c.pool = s.c.pool := rfl
      have hm : (s.withOptions o1).mem = s.mem := rfl
      simp only [step]
      rw [Release_of_active env s h1, Release_of_active env _ h1w, hc, hpw, hm, hp]
      simp [State.withOptions, PoolCall.withOptions]
    · have h1w : (s.withOptions o1).c.isActive ≠ 1 := h1
      simp only [step]
      rw [Release_of_not_active env s h1, Release_of_not_active env _ h1w]
  · by_cases h1 : s.c.isActive = 1
    · have h1w : (s.withOptions o1).c.isActive = 1 := h1
      have hp := (hpool s.c.pool (cleared s.c) o1 s.mem).2
      have hc : cleared (s.withOptions o1).c = (cleared s.c).withOptions o1 := rfl
      have hpw : (s.withOptions o1).c.pool = s.c.pool := rfl
      have hm : (s.withOptions o1).mem = s.mem := rfl
      simp only [step]
      rw [Discard_of_active env s h1, Discard_of_active env _ h1w, hc, hpw, hm, hp]
      simp [State.withOptions, PoolCall.withOptions]
    · have h1w : (s.withOptions o1).c.isActive ≠ 1 := h1
      simp only [step]
      rw [Discard_of_not_active env s h1, Discard_of_not_active env _ h1w]

/-- A sequence of method calls on two states that differ in the handle's
options only. -/
theorem run_withOptions (env : Env ε α P Opt σ) (hpool : IgnoresOptions env)
    (o1 : Opt) (ops : List Op) (s : State α P Opt σ) :
    run env ops (s.withOptions o1) =
      ((run env ops s).1, (run env ops s).2.withOptions o1) := by
  induction ops generalizing s with
  | nil => rfl
  | cons o os ih =>
    simp only [run]
    rw [step_withOptions env hpool o1 o s]
    simp only [ih]

/-- C12: in every state reached from `NewManagedHandle(location, resource,
pool, options)`, the first component of `Handle`'s result is the resource
given to the constructor; on a terminated handle it comes together with the
non-nil error, on an active one with nil: only the error component depends on
the state. -/
theorem Handle_returns_stale_resource (env : Env ε α P Opt σ) (loc : String)
    (h : α) (p : P) (opts : Opt) (mem : σ) (ops : List Op) :
    (ManagedHandleImpl.Handle env (run env ops (fresh loc h p opts mem)).2).1.1 = h ∧
    (Terminated (run env ops (fresh loc h p opts mem)).2.c →
      (ManagedHandleImpl.Handle env (run env ops (fresh loc h p opts mem)).2).1 =
        (h, some (env.errorsNew "Resource handle is no longer valid"))) ∧
    (Active (run env ops (fresh loc h p opts mem)).2.c →
      (ManagedHandleImpl.Handle env (run env ops (fresh loc h p opts mem)).2).1 =
        (h, none)) := by
  have hh : (run env ops (fresh loc h p opts mem)).2.c.handle = h :=
    (run_frame env ops (fresh loc h p opts mem)).2.1
  refine ⟨?_, ?_, ?_⟩
  · rcases run_fresh_flag env loc h p opts mem ops with h0 | h1
    · rw [Handle_of_cleared env _ h0]
      exact hh
    · rw [Handle_of_set env _ (by omega)]
      exact hh
  · intro h0
    rw [Handle_of_cleared env _ h0, hh]
  · intro h1
    have h1a : (run env ops (fresh loc h p opts mem)).2.c.isActive = 1 := h1
    rw [Handle_of_set env _ (by omega), hh]

/-- Witness of C12: `Handle` on a released handle still yields `"R"`. -/
theorem Handle_returns_stale_resource_witness :
    Terminated (run demoEnv [Op.Handle, Op.Release] (demoFresh 1)).2.c ∧
    (ManagedHandleImpl.Handle demoEnv
      (run demoEnv [Op.Handle, Op.Release] (demoFresh 1)).2).1 =
        ("R", some "Resource handle is no longer valid") :=
  ⟨by decide,
    (Handle_returns_stale_resource demoEnv "host:1" "R" 1 () []
      [Op.Handle, Op.Release]).2.1 (by decide)⟩

/-- One method call on two states that hold the same handle but for its
options, whatever the pool does. -/
theorem step_sameButOptions (env : Env ε α P Opt σ) (o1 : Opt) (op : Op)
    (s1 s2 : State α P Opt σ) (h : sameButOptions o1 s1 s2) :
    sameButOptions o1 (step env op s1).2 (step env op s2).2 ∧
    (step env op s1).1.withoutPoolError = (step env op s2).1.withoutPoolError := by
  obtain ⟨hc, hcalls⟩ := h
  have hflag : s1.c.isActive = s2.c.isActive := by rw [hc]; rfl
  cases op
  · refine ⟨⟨hc, hcalls⟩, ?_⟩
    simp only [step, ManagedHandleImpl.ResourceLocation, hc]
    rfl
  · by_cases h0 : s2.c.isActive = 0
    · simp only [step]
      rw [Handle_of_cleared env s2 h0, Handle_of_cleared env s1 (by omega)]
      exact ⟨⟨hc, hcalls⟩, by simp only [hc]; rfl⟩
    · simp only [step]
      rw [Handle_of_set env s2 h0, Handle_of_set env s1 (by omega)]
      exact ⟨⟨hc, hcalls⟩, by simp only [hc]; rfl⟩
  · refine ⟨⟨hc, hcalls⟩, ?_⟩
    simp only [step, ManagedHandleImpl.Owner, hc]
    rfl
  · by_cases h1 : s2.c.isActive = 1
    · simp only [step]
      rw [Release_of_active env s2 h1, Release_of_active env s1 (by omega)]
      refine ⟨⟨?_, ?_⟩, rfl⟩
      · simp only [hc]
        rfl
      · simp only [hc, hcalls, List.map_append, List.map_cons, List.map_nil]
        rfl
    · simp only [step]
      rw [Release_of_not_active env s2 h1, Release_of_not_active env s1 (by omega)]
      exact ⟨⟨hc, hcalls⟩, rfl⟩
  · by_cases h1 : s2.c.isActive = 1
    · simp only [step]
      rw [Discard_of_active env s2 h1, Discard_of_active env s1 (by omega)]
      refine ⟨⟨?_, ?_⟩, rfl⟩
      · simp only [hc]
        rfl
      · simp only [hc, hcalls, List.map_append, List.map_cons, List.map_nil]
        rfl
    · simp only [step]
      rw [Discard_of_not_active env s2 h1, Discard_of_not_active env s1 (by omega)]
      exact ⟨⟨hc, hcalls⟩, rfl⟩

/-- A sequence of method calls on two states that hold the same handle but
for its options, whatever the pool does. -/
theorem run_sameButOptions (env : Env ε α P Opt σ) (o1 : Opt) (ops : List Op)
    (s1 s2 : State α P Opt σ) (h : sameButOptions o1 s1 s2) :
    sameButOptions o1 (run env ops s1).2 (run env ops s2).2 ∧
    (run env ops s1).1.map Ret.withoutPoolError =
      (run env ops s2).1.map Ret.withoutPoolError := by
  induction ops generalizing s1 s2 with
  | nil => exact ⟨h, rfl⟩
  | cons o os ih =>
    obtain ⟨hs, hr⟩ := step_sameButOptions env o1 o s1 s2 h
    obtain ⟨hs2, hr2⟩ := ih _ _ hs
    simp only [run, List.map_cons]
    exact ⟨hs2, by rw [hr, hr2]⟩

/-- C13, as the code has it: the handle hands itself to its pool, so what
`Release` and `Discard` return is what the pool makes of the handle it is
given.  For two handles built with the same location, resource and pool and
options `o1`, `o2`, and every sequence of method calls: whatever the pool
does, the handles end up equal but for their options (same activity flag),
the same pool invocations are made (each on its own handle), and the same
values are returned but for the errors the pool supplies; and when the
pool's methods do not depend on the options of the handle they receive
(`IgnoresOptions`), all return values, the pool-side memory and the final
state coincide. -/
theorem options_have_no_influence (env : Env ε α P Opt σ) (loc : String) (h : α)
    (p : P) (o1 o2 : Opt) (mem : σ) (ops : List Op) :
    ((run env ops (fresh loc h p o1 mem)).2.c =
        (run env ops (fresh loc h p o2 mem)).2.c.withOptions o1 ∧
      (run env ops (fresh loc h p o1 mem)).2.c.isActive =
        (run env ops (fresh loc h p o2 mem)).2.c.isActive ∧
      (run env ops (fresh loc h p o1 mem)).2.calls =
        (run env ops (fresh loc h p o2 mem)).2.calls.map (PoolCall.withOptions o1) ∧
      (run env ops (fresh loc h p o1 mem)).1.map Ret.withoutPoolError =
        (run env ops (fresh loc h p o2 mem)).1.map Ret.withoutPoolError) ∧
    (IgnoresOptions env →
      (run env ops (fresh loc h p o1 mem)).1 = (run env ops (fresh loc h p o2 mem)).1 ∧
      (run env ops (fresh loc h p o1 mem)).2.mem =
        (run env ops (fresh loc h p o2 mem)).2.mem ∧
      (run env ops (fresh loc h p o1 mem)).2 =
        (run env ops (fresh loc h p o2 mem)).2.withOptions o1) := by
  have hrel : sameButOptions o1 (fresh loc h p o1 mem : State α P Opt σ)
      (fresh loc h p o2 mem) := ⟨rfl, rfl⟩
  obtain ⟨⟨hc, hcalls⟩, hret⟩ := run_sameButOptions env o1 ops _ _ hrel
  refine ⟨⟨hc, by rw [hc]; rfl, hcalls, hret⟩, ?_⟩
  intro hpool
  have hf : (fresh loc h p o1 mem : State α P Opt σ) =
      (fresh loc h p o2 mem).withOptions o1 := rfl
  rw [hf, run_withOptions env hpool o1 ops (fresh loc h p o2 mem)]
  exact ⟨rfl, rfl, rfl⟩

/-- Witness of C13: options `3` and `5`, calls `Handle, Release, Discard,
Handle`. -/
theorem options_have_no_influence_witness :
    IgnoresOptions optEnv ∧
    (run optEnv [Op.Handle, Op.Release, Op.Discard, Op.Handle]
        (fresh "host:1" "R" 1 3 [])).1 =
      (run optEnv [Op.Handle, Op.Release, Op.Discard, Op.Handle]
        (fresh "host:1" "R" 1 5 [])).1 :=
  ⟨fun _ _ _ _ => ⟨rfl, rfl⟩,
    ((options_have_no_influence optEnv "host:1" "R" 1 3 5 []
      [Op.Handle, Op.Release, Op.Discard, Op.Handle]).2
        (fun _ _ _ _ => ⟨rfl, rfl⟩)).1⟩

/-- C13 as stated fails: with a pool whose `Release` reads the options of
the handle it is given, two handles that differ in their options only return
different values from `Release` (`"quota exceeded"` for options `3`, nil for
options `5`). -/
theorem options_reach_the_pool :
    (run pickyEnv [Op.Release] (fresh "host:1" "R" 1 3 [])).1 =
        [Ret.Release (some "quota exceeded")] ∧
    (run pickyEnv [Op.Release] (fresh "host:1" "R" 1 5 [])).1 = [Ret.Release none] ∧
    (run pickyEnv [Op.Release] (fresh "host:1" "R" 1 3 [])).1 ≠
      (run pickyEnv [Op.Release] (fresh "host:1" "R" 1 5 [])).1 := by
  refine ⟨by decide, by decide, by decide⟩

/-- C15: in every state reached from `NewManagedHandle` by any sequence of
method calls the flag `isActive` is `0` or `1`; hence the test of `Handle`
(`isActive == 0`) and that of `Release`/`Discard` (compare-and-swap from `1`)
agree: `Handle` returns a nil error exactly when the compare-and-swap would
succeed, that is, exactly when a `Release`, and exactly when a `Discard`,
issued in that state makes an invocation on the pool. -/
theorem flag_tests_agree (env : Env ε α P Opt σ) (loc : String) (h : α) (p : P)
    (opts : Opt) (mem : σ) (ops : List Op) :
    ((run env ops (fresh loc h p opts mem)).2.c.isActive = 0 ∨
      (run env ops (fresh loc h p opts mem)).2.c.isActive = 1) ∧
    ((ManagedHandleImpl.Handle env (run env ops (fresh loc h p opts mem)).2).1.2 = none ↔
      (CompareAndSwapInt32 (run env ops (fresh loc h p opts mem)).2.c.isActive 1 0).1
        = true) ∧
    ((ManagedHandleImpl.Handle env (run env ops (fresh loc h p opts mem)).2).1.2 = none ↔
      (ManagedHandleImpl.Release env (run env ops (fresh loc h p opts mem)).2).2.calls =
        (run env ops (fresh loc h p opts mem)).2.calls ++
          [PoolCall.Release (cleared (run env ops (fresh loc h p opts mem)).2.c)]) ∧
    ((ManagedHandleImpl.Handle env (run env ops (fresh loc h p opts mem)).2).1.2 = none ↔
      (ManagedHandleImpl.Discard env (run env ops (fresh loc h p opts mem)).2).2.calls =
        (run env ops (fresh loc h p opts mem)).2.calls ++
          [PoolCall.Discard (cleared (run env ops (fresh loc h p opts mem)).2.c)]) := by
  have hflag := run_fresh_flag env loc h p opts mem ops
  refine ⟨hflag, ?_, ?_, ?_⟩
  · rcases hflag with h0 | h1
    · rw [Handle_of_cleared env _ h0]
      simp [CompareAndSwapInt32, h0]
    · rw [Handle_of_set env _ (by omega)]
      simp [CompareAndSwapInt32, h1]
  · rcases hflag with h0 | h1
    · rw [Handle_of_cleared env _ h0, Release_of_not_active env _ (by omega)]
      simp
    · rw [Handle_of_set env _ (by omega), Release_of_active env _ h1]
      exact ⟨fun _ => rfl, fun _ => rfl⟩
  · rcases hflag with h0 | h1
    · rw [Handle_of_cleared env _ h0, Discard_of_not_active env _ (by omega)]
      simp
    · rw [Handle_of_set env _ (by omega), Discard_of_active env _ h1]
      exact ⟨fun _ => rfl, fun _ => rfl⟩

/-! ### Concurrent calls -/

/-- C11: any number of `Release` and `Discard` calls issued concurrently on
one active handle, under every interleaving of their atomic steps (`sched`):
no two calls win the compare-and-swap, and the pool is invoked at most once;
once all calls have returned, exactly one call is the winner, it has
forwarded to the pool and returned the pool's result, every other call has
returned nil without forwarding, and `Handle` returns an error; every
schedule that lets each call take its two steps makes all calls return.  For
one `Release` and one `Discard`: exactly one of the pool's `Release` or
`Discard` has been invoked with this handle, and both calls have returned nil
when that pool call returned nil. -/
theorem concurrent_terminal_calls (env : Env ε α P Opt σ) (s : State α P Opt σ)
    (hact : Active s.c) (ts : List Terminal) (sched : List Nat) :
    (∀ (i j : Nat) (gi gj : Goroutine ε),
      (exec env sched (spawn ts s)).gs[i]? = some gi →
      (exec env sched (spawn ts s)).gs[j]? = some gj →
      gi.won = true → gj.won = true → i = j) ∧
    ((exec env sched (spawn ts s)).st.calls = s.calls ∨
      ∃ t ∈ ts, (exec env sched (spawn ts s)).st.calls =
        s.calls ++ [poolCall t (cleared s.c)]) ∧
    (ts ≠ [] → allReturned (exec env sched (spawn ts s)) = true →
      ∃ w t, ts[w]? = some t ∧
        (exec env sched (spawn ts s)).gs[w]? = some
          { op := t,
            pc := Pc.returned (poolResult env t (cleared s.c) s.mem).1,
            won := true } ∧
        (∀ (j : Nat) (g : Goroutine ε), j ≠ w →
          (exec env sched (spawn ts s)).gs[j]? = some g →
          g.won = false ∧ g.pc = Pc.returned none) ∧
        (exec env sched (spawn ts s)).st.calls =
          s.calls ++ [poolCall t (cleared s.c)] ∧
        (exec env sched (spawn ts s)).st.c = cleared s.c ∧
        (exec env sched (spawn ts s)).st.mem =
          (poolResult env t (cleared s.c) s.mem).2 ∧
        (ManagedHandleImpl.Handle env (exec env sched (spawn ts s)).st).1.2 =
          some (env.errorsNew "Resource handle is no longer valid")) ∧
    ((∀ i, i < ts.length → 2 ≤ sched.count i) →
      allReturned (exec env sched (spawn ts s)) = true) ∧
    (ts = [Terminal.Release, Terminal.Discard] →
      allReturned (exec env sched (spawn ts s)) = true →
      (((exec env sched (spawn ts s)).st.calls =
            s.calls ++ [PoolCall.Release (cleared s.c)] ∧
          (((env.pools s.c.pool).Release (cleared s.c) s.mem).1 = none →
            (exec env sched (spawn ts s)).gs.map (fun g => g.pc) =
              [Pc.returned none, Pc.returned none])) ∨
        ((exec env sched (spawn ts s)).st.calls =
            s.calls ++ [PoolCall.Discard (cleared s.c)] ∧
          (((env.pools s.c.pool).Discard (cleared s.c) s.mem).1 = none →
            (exec env sched (spawn ts s)).gs.map (fun g => g.pc) =
              [Pc.returned none, Pc.returned none]))) ∧
      (ManagedHandleImpl.Handle env (exec env sched (spawn ts s)).st).1.2 =
        some (env.errorsNew "Resource handle is no longer valid")) := by
  have hinv : Inv env s ts (exec env sched (spawn ts s)) :=
    Inv_exec env s hact ts sched _ (Inv_spawn env s ts)
  refine ⟨?_, Inv_calls env s ts _ hinv, ?_, ?_, ?_⟩
  · intro i j gi gj hi hj hwi hwj
    exact Inv_winner_unique env s ts _ hinv i j gi gj hi hj hwi hwj
  · intro hne hall
    obtain ⟨w, t, htw, hgw, hst, hlos⟩ := Inv_allReturned env s ts _ hinv hne hall
    refine ⟨w, t, htw, hgw, hlos, ?_, ?_, ?_, ?_⟩
    · rw [hst]
      rfl
    · rw [hst]
      rfl
    · rw [hst]
      rfl
    · rw [Handle_of_cleared env _ (by rw [hst]; rfl)]
  · intro hfair
    exact exec_allReturned env ts s sched hinv.1 hfair
  · intro hts hall
    rw [hts] at hinv
    rw [hts] at hall ⊢
    obtain ⟨t, hst, hnil⟩ := Inv_pair env s _ hinv hall
    refine ⟨?_, ?_⟩
    · cases t with
      | Release => exact Or.inl ⟨by rw [hst]; rfl, hnil⟩
      | Discard => exact Or.inr ⟨by rw [hst]; rfl, hnil⟩
    · rw [Handle_of_cleared env _ (by rw [hst]; rfl)]

/-- Witness of C11: a `Release` and a `Discard` race on a new handle of pool
`7`; the `Discard` swaps first, then the `Release`, then each finishes. -/
theorem concurrent_terminal_calls_witness :
    Active (demoFresh 7).c ∧
    allReturned (exec demoEnv [1, 0, 1, 0]
      (spawn [Terminal.Release, Terminal.Discard] (demoFresh 7))) = true ∧
    (((exec demoEnv [1, 0, 1, 0]
          (spawn [Terminal.Release, Terminal.Discard] (demoFresh 7))).st.calls =
        (demoFresh 7).calls ++ [PoolCall.Release (cleared (demoFresh 7).c)] ∧
      (((demoEnv.pools (demoFresh 7).c.pool).Release (cleared (demoFresh 7).c)
          (demoFresh 7).mem).1 = none →
        (exec demoEnv [1, 0, 1, 0]
          (spawn [Terminal.Release, Terminal.Discard] (demoFresh 7))).gs.map
            (fun g => g.pc) = [Pc.returned none, Pc.returned none])) ∨
    ((exec demoEnv [1, 0, 1, 0]
          (spawn [Terminal.Release, Terminal.Discard] (demoFresh 7))).st.calls =
        (demoFresh 7).calls ++ [PoolCall.Discard (cleared (demoFresh 7).c)] ∧
      (((demoEnv.pools (demoFresh 7).c.pool).Discard (cleared (demoFresh 7).c)
          (demoFresh 7).mem).1 = none →
        (exec demoEnv [1, 0, 1, 0]
          (spawn [Terminal.Release, Terminal.Discard] (demoFresh 7))).gs.map
            (fun g => g.pc) = [Pc.returned none, Pc.returned none]))) :=
  ⟨by decide, by decide,
    ((concurrent_terminal_calls demoEnv (demoFresh 7) (by decide)
      [Terminal.Release, Terminal.Discard] [1, 0, 1, 0]).2.2.2.2 rfl (by decide)).1⟩

/-! ### Re-entrant pool methods -/

/-- C14: in `Release` and `Discard` the state change comes before the call
into the pool.  On an active handle, with a pool whose methods may call back
into the handle: the pool method is run on the state in which the flag is
already cleared; every method it calls on the handle returns at once and
leaves the state unchanged, `Handle` returning the resource with the error
and `Release`/`Discard` returning nil; so the outer call returns at nesting
depth two whatever the pool method does, with exactly one pool invocation
recorded and the pool method's result computed from those answers. -/
theorem reentrant_calls_are_noops (env : REnv ε α P Opt σ) (s : State α P Opt σ)
    (hact : Active s.c) (n : Nat) :
    (callOp env (n + 2) Op.Release s =
        (runProg (callOp env (n + 1))
          ((env.pools s.c.pool).Release (cleared s.c) s.mem)
          { c := cleared s.c, mem := s.mem,
            calls := s.calls ++ [PoolCall.Release (cleared s.c)] }).map
          (fun r => (Ret.Release r.1, r.2)) ∧
      callOp env (n + 2) Op.Discard s =
        (runProg (callOp env (n + 1))
          ((env.pools s.c.pool).Discard (cleared s.c) s.mem)
          { c := cleared s.c, mem := s.mem,
            calls := s.calls ++ [PoolCall.Discard (cleared s.c)] }).map
          (fun r => (Ret.Discard r.1, r.2))) ∧
    (∀ (o : Op) (st : State α P Opt σ), st.c = cleared s.c →
      callOp env (n + 1) o st = some (terminatedAnswer env (cleared s.c) o, st)) ∧
    (terminatedAnswer env (cleared s.c) Op.Handle =
        Ret.Handle s.c.handle
          (some (env.errorsNew "Resource handle is no longer valid")) ∧
      terminatedAnswer env (cleared s.c) Op.Release = Ret.Release none ∧
      terminatedAnswer env (cleared s.c) Op.Discard = Ret.Discard none) ∧
    (callOp env (n + 2) Op.Release s =
        some (Ret.Release
            (runAnswered (terminatedAnswer env (cleared s.c))
              ((env.pools s.c.pool).Release (cleared s.c) s.mem)).1,
          { c := cleared s.c,
            mem := (runAnswered (terminatedAnswer env (cleared s.c))
              ((env.pools s.c.pool).Release (cleared s.c) s.mem)).2,
            calls := s.calls ++ [PoolCall.Release (cleared s.c)] }) ∧
      callOp env (n + 2) Op.Discard s =
        some (Ret.Discard
            (runAnswered (terminatedAnswer env (cleared s.c))
              ((env.pools s.c.pool).Discard (cleared s.c) s.mem)).1,
          { c := cleared s.c,
            mem := (runAnswered (terminatedAnswer env (cleared s.c))
              ((env.pools s.c.pool).Discard (cleared s.c) s.mem)).2,
            calls := s.calls ++ [PoolCall.Discard (cleared s.c)] })) := by
  have hR := callOp_Release_unfold env (n + 1) s hact
  have hD := callOp_Discard_unfold env (n + 1) s hact
  refine ⟨⟨hR, hD⟩, ?_, ⟨rfl, rfl, rfl⟩, ?_, ?_⟩
  · intro o st hst
    have h0 : st.c.isActive = 0 := by
      rw [hst]
      rfl
    rw [callOp_cleared env n o st h0, hst]
  · rw [hR, runProg_cleared env n _ _ rfl]
    rfl
  · rw [hD, runProg_cleared env n _ _ rfl]
    rfl

/-- Witness of C14: the pool's `Release` calls `Handle`, `Release` and
`Discard` on the handle it received and logs the answers. -/
theorem reentrant_calls_are_noops_witness :
    Active (fresh "host:1" "R" 1 () [] :
      State String Nat Unit (List (Ret String String Nat))).c ∧
    callOp nosyEnv 2 Op.Release (fresh "host:1" "R" 1 () []) =
      some (Ret.Release none,
        { c := cleared (NewManagedHandle "host:1" "R" 1 ()),
          mem := [Ret.Handle "R" (some "Resource handle is no longer valid"),
            Ret.Release none, Ret.Discard none],
          calls := [PoolCall.Release (cleared (NewManagedHandle "host:1" "R" 1 ()))] }) :=
  ⟨by decide,
    (reentrant_calls_are_noops nosyEnv (fresh "host:1" "R" 1 () []) (by decide)
      0).2.2.2.1⟩

end resource_pool
